import Mathlib

/-!
Verification of the spdz-client-lib protocol engine.

This file gives a shallow embedding of the library's core routines —
the `Gfp` finite-field type (`dist/math/Gfp.js`), the binary-to-array
decoders (`src/type_mapping/binaryToArray.js`), the share reconstruction
routine (`src/type_mapping/binaryToShare.js`), the list comparison
utility (`src/utility/listComparison.js`), the websocket transform
functions (`src/socket_api/transform.js`), the fixed point conversions
(`dist/math/numericConversions.js`) and the authenticated encryption
wrappers (`src/crypto/index.js`) — and proves properties of them.

Byte buffers (JS `Uint8Array`) are embedded as `List Nat`; JS
exceptions are embedded with `Except`, distinguishing `Error`,
`TypeError` and assertion failures; JS arbitrary-precision integers
(the big-integer package) become `Nat`/`Int`.
-/

/-- The kinds of JS exceptions thrown by the library code. -/
inductive JSError where
  | error (msg : String)
  | typeError (msg : String)
  | assertionError (msg : String)
deriving DecidableEq, Repr

/-- A byte buffer (`Uint8Array`); each entry is one byte. -/
abbrev Bytes := List Nat

/-- JS `Array.prototype.map` with a callback that may throw: the elements
are processed left to right and the first exception aborts the whole map. -/
def mapME {α β : Type} (f : α → Except JSError β) : List α → Except JSError (List β)
  | [] => Except.ok []
  | x :: xs => do
    let y ← f x
    let ys ← mapME f xs
    Except.ok (y :: ys)

/-- Character for one hex digit (lowercase), as produced by JS
`Number.prototype.toString(16)` and big-integer `toString(16)`. -/
def hexDigitChar (n : Nat) : Char :=
  if n < 10 then Char.ofNat (48 + n) else Char.ofNat (87 + n)

/-- Hex digits, least significant first, with explicit recursion fuel (the
fuel keeps the definition structurally recursive and hence computable by the
kernel; `natToHexRevAux_fuel` shows the fuel is irrelevant once sufficient). -/
def natToHexRevAux : Nat → Nat → List Char
  | 0, _ => []
  | fuel + 1, n => if n = 0 then [] else hexDigitChar (n % 16) :: natToHexRevAux fuel (n / 16)

/-- Hex digits of a number, least significant first (`[]` for zero). -/
def natToHexRev (n : Nat) : List Char := natToHexRevAux n n

/-- `toString(16)`: minimal-length lowercase big-endian hex, `"0"` for zero. -/
def natToHexString (n : Nat) : String :=
  if n = 0 then "0" else String.mk (natToHexRev n).reverse

/-- `padHex` from `utility/binary.js`: prefix `'0'` when the length is odd. -/
def padHex (hex : String) : String :=
  if hex.length % 2 ≠ 0 then "0" ++ hex else hex

/-- `binaryToHex` from `utility/binary.js`: reduce over the buffer appending
each byte's two-character hex form. -/
def binaryToHex (binaryArray : Bytes) : String :=
  binaryArray.foldl (fun hexString i => hexString ++ padHex (natToHexString i)) ""

/-- Numeric value of one hex character (big-integer parse semantics on the
valid hex strings this library produces). -/
def hexCharVal (c : Char) : Nat :=
  if 48 ≤ c.toNat ∧ c.toNat ≤ 57 then c.toNat - 48
  else if 97 ≤ c.toNat ∧ c.toNat ≤ 102 then c.toNat - 87
  else if 65 ≤ c.toNat ∧ c.toNat ≤ 70 then c.toNat - 55
  else 0

/-- big-integer base-16 string parsing, as used by `Gfp.fromSpdz`. -/
def parseHex (s : String) : Nat :=
  s.data.foldl (fun acc c => 16 * acc + hexCharVal c) 0

/-! ## The `Gfp` field type (`dist/math/Gfp.js`) -/

def INTEGER_LENGTH_BYTES : Nat := 16

def GFP_PRIME : Nat := 172035116406933162231178957667602464769

/-- `GFP_PRIME.divide(2)`: big-integer division truncates. -/
def GFP_NEGATIVE_BOUNDARY : Nat := GFP_PRIME / 2

/-- `GFP_NEGATIVE_BOUNDARY.minus(GFP_PRIME)`. -/
def MIN_NEGATIVE : Int := (GFP_NEGATIVE_BOUNDARY : Int) - (GFP_PRIME : Int)

def R : Nat := 2 ^ (INTEGER_LENGTH_BYTES * 8)

/-- `R.modInv(GFP_PRIME)`: the modular inverse of `R = 2^128` modulo the
prime, characterised by `R_INVERSE_spec` below. -/
def R_INVERSE : Nat := 116525037434575252203671714714489805504

theorem R_INVERSE_spec : R * R_INVERSE % GFP_PRIME = 1 := by decide

theorem R_INVERSE_lt : R_INVERSE < GFP_PRIME := by decide

/-- Convert to Montgomery representation: `value.multiply(R).mod(GFP_PRIME)`. -/
def toMontgomery (value : Nat) : Nat := value * R % GFP_PRIME

/-- Convert from Montgomery representation:
`value.multiply(R_INVERSE).mod(GFP_PRIME)`. -/
def fromMontgomery (value : Nat) : Nat := value * R_INVERSE % GFP_PRIME

/-- Remap the field range `[0, P)` to `[-P/2, P/2)`. -/
def fromGfpMapping (bigIntGfp : Nat) : Int :=
  if GFP_NEGATIVE_BOUNDARY ≤ bigIntGfp then (bigIntGfp : Int) - (GFP_PRIME : Int)
  else (bigIntGfp : Int)

/-- A field element: the wrapped big integer (always nonnegative after the
constructor's mapping). -/
structure Gfp where
  val : Nat
deriving DecidableEq, Repr

/-- The `Gfp` constructor. `isMapped = true` takes a value already in the
field (wire/Montgomery form) and stores it unchanged after a range check;
`isMapped = false` takes a user integer, range-checks it against
`[MIN_NEGATIVE, GFP_NEGATIVE_BOUNDARY)`, maps negatives up by the prime and
converts to Montgomery form. -/
def mkGfp (value : Int) (isMapped : Bool) : Except JSError Gfp :=
  if isMapped then
    if value < 0 ∨ (GFP_PRIME : Int) < value then
      Except.error (JSError.error ("Got a Gfp integer " ++ toString value ++
        " which exceeds the field size 0 to prime."))
    else
      Except.ok ⟨value.toNat⟩
  else
    if value < MIN_NEGATIVE ∨ (GFP_NEGATIVE_BOUNDARY : Int) ≤ value then
      Except.error (JSError.error ("Got an integer " ++ toString value ++
        " which exceeds the field size -prime/2 to prime/2."))
    else
      Except.ok ⟨toMontgomery (if value < 0 then value + GFP_PRIME else value).toNat⟩

/-- `Gfp.fromUserInput`: wrap a user-supplied integer. -/
def Gfp.fromUserInput (v : Int) : Except JSError Gfp := mkGfp v false

/-- `Gfp.fromSpdz`: wrap a SPDZ-supplied hex string already in the field. -/
def Gfp.fromSpdz (hexString : String) : Except JSError Gfp :=
  mkGfp (parseHex hexString : Nat) true

/-- `Gfp.add`: `new Gfp(this.val.add(other.val).mod(GFP_PRIME), true)`.
The re-constructed value is in `[0, P)` so the mapped-range check of the
constructor never fires and the result is total. -/
def Gfp.add (a b : Gfp) : Gfp := ⟨(a.val + b.val) % GFP_PRIME⟩

/-- `Gfp.multiply`:
`new Gfp(this.val.multiply(other.val).multiply(R_INVERSE).mod(GFP_PRIME), true)`. -/
def Gfp.multiply (a b : Gfp) : Gfp := ⟨a.val * b.val * R_INVERSE % GFP_PRIME⟩

/-- `Gfp.equals`: equality of the stored values. -/
def Gfp.equals (a b : Gfp) : Bool := a.val == b.val

/-- `Gfp.toNativeHexString`: `this.val.toString(16)`. -/
def Gfp.toNativeHexString (g : Gfp) : String := natToHexString g.val

/-- `Gfp.toJSInteger`: undo the Montgomery form and the negative mapping,
then range-check against the JS safe integer range
`[Number.MIN_SAFE_INTEGER, Number.MAX_SAFE_INTEGER]`. -/
def Gfp.toJSInteger (g : Gfp) : Except JSError Int :=
  let bigintVal := fromGfpMapping (fromMontgomery g.val)
  if -(2 ^ 53 - 1) ≤ bigintVal ∧ bigintVal ≤ 2 ^ 53 - 1 then
    Except.ok bigintVal
  else
    Except.error (JSError.error ("Overflow converting Gfp " ++ toString bigintVal ++
      " to JS Integer."))

/-! ## Binary decoding (`src/type_mapping/binaryToArray.js`) -/

/-- Grouping loop with explicit recursion fuel (kept structurally recursive
so the kernel can evaluate it; `chunkBytesAux_fuel` shows the fuel is
irrelevant once it is at least the buffer length). -/
def chunkBytesAux : Nat → Nat → Bytes → List Bytes
  | _, _, [] => []
  | _, 0, _ :: _ => []
  | 0, _ + 1, _ :: _ => []
  | fuel + 1, w + 1, x :: xs =>
    (x :: xs).take (w + 1) :: chunkBytesAux fuel (w + 1) ((x :: xs).drop (w + 1))

/-- Split a buffer into consecutive groups of `w` bytes, as the extraction
loops do with `slice(i, i + w)` steps. -/
def chunkBytes (w : Nat) (l : Bytes) : List Bytes := chunkBytesAux l.length w l

/-- Helper: the recursion fuel of `chunkBytesAux` is irrelevant once it is
at least the buffer length. -/
theorem chunkBytesAux_fuel :
    ∀ (fuel fuel2 w : Nat) (l : Bytes), l.length ≤ fuel → l.length ≤ fuel2 →
      chunkBytesAux fuel w l = chunkBytesAux fuel2 w l := by
  intro fuel
  induction fuel with
  | zero =>
    intro fuel2 w l h1 _
    have : l = [] := List.length_eq_zero.1 (Nat.le_zero.1 h1)
    subst this
    cases fuel2 <;> cases w <;> simp [chunkBytesAux]
  | succ f ih =>
    intro fuel2 w l h1 h2
    cases l with
    | nil => cases fuel2 <;> cases w <;> simp [chunkBytesAux]
    | cons x xs =>
      cases w with
      | zero => cases fuel2 <;> simp [chunkBytesAux]
      | succ w =>
        obtain ⟨f2, rfl⟩ : ∃ f2, fuel2 = f2 + 1 := by
          cases fuel2
          · simp at h2
          · exact ⟨_, rfl⟩
        simp only [chunkBytesAux]
        simp only [List.length_cons] at h1 h2
        rw [ih f2 (w + 1) ((x :: xs).drop (w + 1))
          (by simp only [List.length_drop, List.length_cons]; omega)
          (by simp only [List.length_drop, List.length_cons]; omega)]

/-- Helper: the grouping recurrence of `chunkBytes`. -/
theorem chunkBytes_cons (w : Nat) (x : Nat) (xs : Bytes) :
    chunkBytes (w + 1) (x :: xs) =
      (x :: xs).take (w + 1) :: chunkBytes (w + 1) ((x :: xs).drop (w + 1)) := by
  show chunkBytesAux (x :: xs).length (w + 1) (x :: xs) = _
  rw [List.length_cons]
  simp only [chunkBytesAux]
  rw [chunkBytesAux_fuel xs.length ((x :: xs).drop (w + 1)).length (w + 1)
    ((x :: xs).drop (w + 1)) (by simp) (le_refl _)]
  rfl

/-- Helper: grouping the empty buffer. -/
theorem chunkBytes_nil (w : Nat) : chunkBytes w [] = [] := by
  cases w <;> rfl

/-- `checkBuffer`: the joined report of buffers whose length is not a
multiple of `intSize` (the `Uint8Array` type check always passes in this
typed embedding). -/
def checkBuffer (intSize : Nat) (byteBufferList : List Bytes) : String :=
  String.intercalate "\n"
    ((byteBufferList.enum.map (fun p =>
      if p.2.length % intSize = 0 then ""
      else "Spdz proxy " ++ toString p.1 ++ " provided " ++ toString p.2.length ++
        " bytes, expected multiple of " ++ toString intSize ++ ".")).filter
      (fun message => 0 < message.length))

/-- One step of the `allSame` reduce. The accumulator is `none` once the
`NaN` sentinel has been produced; `NaN.length` is `undefined` (falsy), so a
`none` accumulator propagates. The rows' lengths must both be truthy
(nonzero) and equal before the element comparison runs. -/
def allSameStep {α : Type} (beq : α → α → Bool) :
    Option (List α) → List α → Option (List α)
  | none, _ => none
  | some a, b =>
    if a.length ≠ 0 ∧ b.length ≠ 0 ∧ a.length = b.length ∧
        (a.zip b).all (fun p => beq p.1 p.2) then some a
    else none

/-- `allSame`: a reduce without initial value over the matrix rows; the
final `!!` is truthiness — a row (JS array) is truthy, `NaN` is falsy. -/
def allSame {α : Type} (beq : α → α → Bool) (matrix : List (List α)) : Bool :=
  match matrix with
  | [] => true
  | x :: rest => (rest.foldl (allSameStep beq) (some x)).isSome

/-- `binaryToArray`: validate the buffers, run the extraction function on
each, demand all rows agree, and return the first row. -/
def binaryToArray {α : Type} (byteBufferList : List Bytes) (typeByteLength : Nat)
    (extractBinaryIntoArray : Bytes → Except JSError (List α)) (beq : α → α → Bool) :
    Except JSError (List α) :=
  if byteBufferList.length = 0 then
    Except.error (JSError.error "No data to extract.")
  else
    let chkBufLengthMessage := checkBuffer typeByteLength byteBufferList
    if 0 < chkBufLengthMessage.length then
      Except.error (JSError.error chkBufLengthMessage)
    else
      match mapME extractBinaryIntoArray byteBufferList with
      | Except.error e => Except.error e
      | Except.ok arrayMatrix =>
        if ! allSame beq arrayMatrix then
          Except.error (JSError.error "Not all parties have sent the same result.")
        else
          Except.ok (arrayMatrix.headD [])

/-- `DataView.getUint32(i, true)`: little-endian 32-bit read of one 4-byte
group. -/
def getUint32LE (g : Bytes) : Nat :=
  match g with
  | [b0, b1, b2, b3] => b0 + 256 * b1 + 65536 * b2 + 16777216 * b3
  | _ => 0

/-- The extraction callback of `binaryToIntArray`. -/
def extractIntArray (byteBuffer : Bytes) : List Nat :=
  (chunkBytes 4 byteBuffer).map getUint32LE

/-- `binaryToIntArray`. -/
def binaryToIntArray (byteBufferList : List Bytes) : Except JSError (List Nat) :=
  binaryToArray byteBufferList 4 (fun byteBuffer => Except.ok (extractIntArray byteBuffer))
    (fun a b => a == b)

/-- Decode one 16-byte group as `binaryToGfpArray` does: byte-reverse the
slice, hex-encode, and parse through `Gfp.fromSpdz`. -/
def decodeGfpGroup (gfpBytes : Bytes) : Except JSError Gfp :=
  Gfp.fromSpdz (binaryToHex gfpBytes.reverse)

/-- The extraction callback of `binaryToGfpArray` (it can throw through
`Gfp.fromSpdz`). -/
def extractGfpArray (byteBuffer : Bytes) : Except JSError (List Gfp) :=
  mapME decodeGfpGroup (chunkBytes 16 byteBuffer)

/-- `binaryToGfpArray`. -/
def binaryToGfpArray (byteBufferList : List Bytes) : Except JSError (List Gfp) :=
  binaryToArray byteBufferList 16 extractGfpArray Gfp.equals

/-! ## Share reconstruction (`src/type_mapping/binaryToShare.js`) -/

def TRIPLE_BYTES : Nat := 3 * INTEGER_LENGTH_BYTES

/-- A Beaver triple of Montgomery-form field elements. -/
structure Triple where
  a : Gfp
  b : Gfp
  c : Gfp
deriving DecidableEq, Repr

/-- The `Triple` constructor: run `binaryToGfpArray` on the single 48-byte
buffer and take the three decoded elements. (A buffer that does not decode
to exactly three elements would leave `undefined` fields in JS and crash on
first use; all call sites pass exactly 48 bytes.) -/
def mkTriple (byteBuffer : Bytes) : Except JSError Triple :=
  match binaryToGfpArray [byteBuffer] with
  | Except.error e => Except.error e
  | Except.ok [a, b, c] => Except.ok ⟨a, b, c⟩
  | Except.ok _ => Except.error (JSError.typeError "Cannot read property of undefined")

/-- `Triple.zero()`: decode a buffer of 48 zero bytes. -/
def tripleZero : Except JSError Triple := mkTriple (List.replicate (3 * INTEGER_LENGTH_BYTES) 0)

/-- `Triple.checkRelation`: `a.multiply(b).equals(c)`. -/
def Triple.checkRelation (t : Triple) : Bool := (t.a.multiply t.b).equals t.c

/-- `Triple.add`: componentwise `Gfp.add` (the JS method mutates in place;
the reduce's net effect is this pure function). -/
def Triple.add (s t : Triple) : Triple := ⟨s.a.add t.a, s.b.add t.b, s.c.add t.c⟩

/-- One step of the same-length reduce in `checkBufferLength`: the
accumulator is `none` once the `NaN` sentinel has been produced
(`NaN.length` is `undefined` and never equals a number). -/
def sameLengthStep : Option Bytes → Bytes → Option Bytes
  | none, _ => none
  | some a, b => if a.length = b.length then some a else none

/-- The per-buffer message of `checkBufferLength`: empty for a positive
multiple of 48 bytes, a complaint naming the party index otherwise. -/
def tripleLengthMsg (p : Nat × Bytes) : String :=
  if 0 < p.2.length ∧ p.2.length % TRIPLE_BYTES = 0 then ""
  else "Spdz proxy " ++ toString p.1 ++ " provided triple with " ++ toString p.2.length ++
    " bytes, must be a multiple of " ++ toString TRIPLE_BYTES ++ "."

/-- `checkBufferLength`: per-buffer positive-multiple-of-48 messages, plus a
same-length check implemented with a reduce without initial value — which
throws a `TypeError` on an empty list. The final `!!` is truthiness: a
surviving buffer is truthy, the `NaN` sentinel falsy. -/
def checkBufferLength : List Bytes → Except JSError String
  | [] => Except.error (JSError.typeError "Reduce of empty array with no initial value")
  | b0 :: rest =>
    Except.ok (String.intercalate "\n"
      ((if (rest.foldl sameLengthStep (some b0)).isSome then
          (b0 :: rest).enum.map tripleLengthMsg
        else (b0 :: rest).enum.map tripleLengthMsg ++
          ["Shares from each proxy are expected to be the same byte length."]).filter
        (fun message => 0 < message.length)))

/-- The JS `slice(i * TRIPLE_BYTES, (i + 1) * TRIPLE_BYTES)` of a buffer. -/
def tripleSlice (byteBuffer : Bytes) (i : Nat) : Bytes :=
  (byteBuffer.drop (i * TRIPLE_BYTES)).take TRIPLE_BYTES

/-- The body of the `range(expectedNum).map` in `binaryToShare`: build one
triple per party from slice `i`, reduce them onto the zero triple, verify,
and yield the combined `a`. -/
def combineSlice (byteBufferList : List Bytes) (i : Nat) : Except JSError Gfp :=
  match mapME (fun byteBuffer => mkTriple (tripleSlice byteBuffer i)) byteBufferList with
  | Except.error e => Except.error e
  | Except.ok triples =>
    match tripleZero with
    | Except.error e => Except.error e
    | Except.ok z =>
      if ! (triples.foldl Triple.add z).checkRelation then
        Except.error (JSError.error "Triple to be used for a share failed check.")
      else
        Except.ok (triples.foldl Triple.add z).a

/-- `binaryToShare` (default export of `binaryToShare.js`). The `Array` and
`Uint8Array` type checks always pass in this typed embedding. -/
def binaryToShare (byteBufferList : List Bytes) : Except JSError (List Gfp) :=
  match checkBufferLength byteBufferList with
  | Except.error e => Except.error e
  | Except.ok errorMessage =>
    if 0 < errorMessage.length then
      Except.error (JSError.error errorMessage)
    else
      mapME (combineSlice byteBufferList)
        (List.range ((byteBufferList.headD []).length / TRIPLE_BYTES))

/-! ## List comparison (`src/utility/listComparison.js`) -/

/-- The reduce loop of `listComparison`, already specialised to a list with
at least two elements. The accumulator is `none` once the `NaN` sentinel has
been produced (the JS comparison callback receives that `NaN`, so `compare`
here takes an `Option`); at the final index a passing comparison yields the
literal `true` and a failing one yields falsy `NaN`, so the result is just
the outcome of the final comparison. -/
def lcLoop {α : Type} (compare : Option α → α → Bool) :
    Option α → α → List α → Bool
  | acc, b, [] => compare acc b
  | acc, b, c :: rest => lcLoop compare (if compare acc b then some b else none) c rest

/-- `listComparison(list, compare)`. -/
def listComparison {α : Type} (list : List α) (compare : Option α → α → Bool) : Bool :=
  match list with
  | [] => true
  | [_] => true
  | x :: y :: rest => lcLoop compare (some x) y rest

/-! ## Websocket transforms (`src/socket_api/transform.js`) -/

/-- `EVENT_TYPE.ERROR`. -/
def EVENT_TYPE_ERROR : String := "error"

/-- One per-party response message: its event type and status. -/
structure ResponseMsg where
  eventType : String
  status : Bool
deriving DecidableEq, Repr

/-- The aggregate event produced by `flattenResponseMessage`. -/
structure FlatResponse where
  eventType : String
  status : Bool
  msg : List ResponseMsg
deriving DecidableEq, Repr

/-- The comparison callback `(a, b) => a.eventType === b.eventType`; on the
`NaN` accumulator, `NaN.eventType` is `undefined` and never equals a string. -/
def eventTypeCompare (a : Option ResponseMsg) (b : ResponseMsg) : Bool :=
  match a with
  | some x => x.eventType == b.eventType
  | none => false

/-- `flattenResponseMessage(msgList)`; `none` models a JS `undefined`
argument. The `assert` failure is an `AssertionError`. -/
def flattenResponseMessage (msgList : Option (List ResponseMsg)) :
    Except JSError FlatResponse :=
  match msgList with
  | none => Except.error (JSError.assertionError
      "Expect non zero response messages in flattenResponseMessage.")
  | some [] => Except.error (JSError.assertionError
      "Expect non zero response messages in flattenResponseMessage.")
  | some (m0 :: rest) =>
    let sameEvents := listComparison (m0 :: rest) eventTypeCompare
    Except.ok
      { eventType := if sameEvents then m0.eventType else EVENT_TYPE_ERROR
        status := if sameEvents then
            (m0 :: rest).foldl (fun a b => a && b.status) true
          else false
        msg := m0 :: rest }

/-! ## User input conversion (`transform.js` / `numericConversions.js`)

JS dynamic values reaching `convertUserInput` are embedded as `JSVal`:
either a number (an exact rational) or a non-number carrying its JS numeric
coercion (`none` when the value coerces to `NaN`). -/

inductive JSVal where
  | num (q : ℚ)
  | other (coerce : Option ℚ)
deriving DecidableEq, Repr

/-- `typeof v === 'number'`. -/
def JSVal.isNumber : JSVal → Bool
  | .num _ => true
  | .other _ => false

/-- `Number.isInteger(v)` (false on any non-number and on `NaN`). -/
def JSVal.isIntegerJS : JSVal → Bool
  | .num q => q.den == 1
  | .other _ => false

/-- The JS ToNumber coercion applied by arithmetic such as `Math.trunc`. -/
def JSVal.coerceNum : JSVal → Option ℚ
  | .num q => some q
  | .other c => c

/-- `Math.trunc`: round toward zero. -/
def jsTrunc (q : ℚ) : Int := if q < 0 then ⌈q⌉ else ⌊q⌋

/-- `Math.round`: round half toward positive infinity. -/
def jsRound (q : ℚ) : Int := ⌊q + 1 / 2⌋

/-- The assertion message of `jsNumberToShiftedInteger`. -/
def fixedAssertMsg (f k : Nat) : String :=
  "Converting real number to fixed point, integer part exceeded " ++
    toString ((k : Int) - (f : Int)) ++ " bits."

/-- `jsNumberToShiftedInteger(number, f, k)` from
`dist/math/numericConversions.js`: assert
`Math.trunc(number) <= 2^(k-f) - 1`, then return
`Math.trunc(Math.round(number * 2^f))`. A `NaN` coercion fails the
assert (`NaN <= x` is false). -/
def jsNumberToShiftedInteger (number : JSVal) (f k : Nat) : Except JSError ℚ :=
  match number.coerceNum with
  | none => Except.error (JSError.assertionError (fixedAssertMsg f k))
  | some q =>
    if (jsTrunc q : ℚ) ≤ (2 : ℚ) ^ ((k : Int) - (f : Int)) - 1 then
      Except.ok ((jsTrunc ((jsRound (q * 2 ^ f) : ℚ)) : ℚ))
    else
      Except.error (JSError.assertionError (fixedAssertMsg f k))

/-- Stringification used in the `must be numbers` message (JS number
formatting approximated by rational printing; only the message text is
affected). -/
def jsValToString : JSVal → String
  | .num q => if q.den = 1 then toString q.num else toString q
  | .other _ => "object"

def userInputErrMsg (inputList : List JSVal) : String :=
  "User input values [" ++ String.intercalate "," (inputList.map jsValToString) ++
    "] must be numbers."

/-- `(a, b) => typeof a === 'number' && typeof b === 'number'`; note that
`typeof NaN === 'number'` is `true`, so the `NaN` accumulator passes the
first conjunct. -/
def numberTypeCompare (a : Option JSVal) (b : JSVal) : Bool :=
  (match a with
    | some v => v.isNumber
    | none => true) && b.isNumber

/-- `(a, b) => Number.isInteger(a) && Number.isInteger(b)`; `Number.isInteger(NaN)`
is `false`. -/
def integerCompare (a : Option JSVal) (b : JSVal) : Bool :=
  (match a with
    | some v => v.isIntegerJS
    | none => false) && b.isIntegerJS

/-- `convertUserInput` from `transform.js`. The process-wide fixed point
parameters `Gfp.fixedPointDecBitLength()` / `Gfp.fixedPointWholeBitLength()`
are passed explicitly as `f` and `k`. -/
def convertUserInput (f k : Nat) (inputList : List JSVal) : Except JSError (List JSVal) :=
  let validNumbers := listComparison inputList numberTypeCompare
  if ! validNumbers then
    Except.error (JSError.error (userInputErrMsg inputList))
  else
    let allIntegers := listComparison inputList integerCompare
    if allIntegers then Except.ok inputList
    else mapME (fun a => (jsNumberToShiftedInteger a f k).map JSVal.num) inputList

/-! ## Authenticated encryption (`src/crypto/index.js`)

The libsodium `crypto_secretbox` primitive is external to the repository;
it is modelled as an abstract scheme and its documented contract (a
round-trip under the right key, authentication failure under a wrong key,
16-byte MAC prefix) enters the theorems as hypotheses. -/

def crypto_box_NONCEBYTES : Nat := 24

def crypto_secretbox_MACBYTES : Nat := 16

/-- An authenticated secret-key encryption primitive:
`easy message nonce key` returns `MAC ‖ ciphertext`;
`openEasy macCipher nonce key` authenticates and decrypts, `none` meaning
the JS exception on MAC mismatch. -/
structure SecretBoxScheme where
  easy : Bytes → Bytes → Bytes → Bytes
  openEasy : Bytes → Bytes → Bytes → Option Bytes

/-- `encrypt(encryptionKey, clearMessage)`: the fresh random nonce is passed
explicitly; the wire layout is `MAC ‖ ciphertext ‖ nonce`. -/
def encrypt (sb : SecretBoxScheme) (encryptionKey : Bytes) (nonce : Bytes)
    (clearMessage : Bytes) : Bytes :=
  let macCipher := sb.easy clearMessage nonce encryptionKey
  macCipher ++ nonce

/-- `decrypt(encryptionKey, cipherMessage)`: assert the minimum length,
split the nonce off the tail, authenticate and decrypt. -/
def decrypt (sb : SecretBoxScheme) (encryptionKey : Bytes) (cipherMessage : Bytes) :
    Except JSError Bytes :=
  if cipherMessage.length < crypto_box_NONCEBYTES + crypto_secretbox_MACBYTES then
    Except.error (JSError.assertionError ("The cipher message must be at least " ++
      toString (crypto_box_NONCEBYTES + crypto_secretbox_MACBYTES) ++ " bytes length."))
  else
    match sb.openEasy (cipherMessage.take (cipherMessage.length - crypto_box_NONCEBYTES))
        (cipherMessage.drop (cipherMessage.length - crypto_box_NONCEBYTES)) encryptionKey with
    | some clear => Except.ok clear
    | none => Except.error (JSError.error "Authentication/decryption failed.")

/-- A small concrete secretbox used to discharge the contract hypotheses in
witnesses: the MAC is sixteen copies of a key/nonce/message checksum. -/
def toyMac (key nonce message : Bytes) : Bytes :=
  List.replicate 16 ((key.sum + nonce.sum + message.sum) % 256)

def toySecretBox : SecretBoxScheme :=
  { easy := fun message nonce key => toyMac key nonce message ++ message
    openEasy := fun macCipher nonce key =>
      if macCipher.take 16 = toyMac key nonce (macCipher.drop 16) then
        some (macCipher.drop 16)
      else none }

/-! ## Theorems -/

/-- C10: `binaryToShare` on an empty array passes the `Array`/`Uint8Array`
type checks (vacuous in this typed embedding) but the same-length
validation reduces the empty list with no initial value and throws a
generic `TypeError`, so the call never returns normally and never produces
a validation error naming a party index. -/
theorem binaryToShare_empty_throws_typeError :
    binaryToShare [] =
      Except.error (JSError.typeError "Reduce of empty array with no initial value") := rfl

/-- Helper: `0 < GFP_PRIME`. -/
theorem gfp_prime_pos : 0 < GFP_PRIME := by decide

/-- C3 (amended): `fromUserInput`, `add` and `multiply` always produce a
stored value in `[0, P)`; `fromSpdz` accepts wire values up to and
including `P` itself and stores them unchanged, so its instances satisfy
only `[0, P]`. -/
theorem gfp_stored_range_invariant :
    (∀ (v : Int) (g : Gfp), Gfp.fromUserInput v = Except.ok g → g.val < GFP_PRIME) ∧
    (∀ (s : String) (g : Gfp), Gfp.fromSpdz s = Except.ok g → g.val ≤ GFP_PRIME) ∧
    (∀ a b : Gfp, (a.add b).val < GFP_PRIME) ∧
    (∀ a b : Gfp, (a.multiply b).val < GFP_PRIME) := by
  refine ⟨?_, ?_, ?_, ?_⟩
  · intro v g h
    unfold Gfp.fromUserInput mkGfp at h
    rw [if_neg (by simp)] at h
    split at h
    · exact absurd h (by simp)
    · simp only [Except.ok.injEq] at h
      subst h
      exact Nat.mod_lt _ gfp_prime_pos
  · intro s g h
    unfold Gfp.fromSpdz mkGfp at h
    rw [if_pos rfl] at h
    split at h
    · exact absurd h (by simp)
    · rename_i hc
      push_neg at hc
      simp only [Except.ok.injEq] at h
      subst h
      have h2 := hc.2
      show ((parseHex s : Int)).toNat ≤ GFP_PRIME
      omega
  · intro a b
    exact Nat.mod_lt _ gfp_prime_pos
  · intro a b
    exact Nat.mod_lt _ gfp_prime_pos

/-- Witness for C3: the invariant evaluated at concrete instances. -/
theorem gfp_stored_range_invariant_witness :
    (142756747521148069727608861851958900344 < GFP_PRIME) ∧
    (15 ≤ GFP_PRIME) ∧
    ((Gfp.add ⟨1⟩ ⟨2⟩).val < GFP_PRIME) ∧
    ((Gfp.multiply ⟨1⟩ ⟨2⟩).val < GFP_PRIME) := by
  refine ⟨?_, ?_, ?_, ?_⟩
  · exact gfp_stored_range_invariant.1 1234 ⟨142756747521148069727608861851958900344⟩ (by rfl)
  · exact gfp_stored_range_invariant.2.1 "f" ⟨15⟩ (by rfl)
  · exact gfp_stored_range_invariant.2.2.1 ⟨1⟩ ⟨2⟩
  · exact gfp_stored_range_invariant.2.2.2 ⟨1⟩ ⟨2⟩

/-- Counterexample for C3 as stated: `fromSpdz` accepts the wire value `P`
itself (the hex string below is `P` in big-endian hex) and stores `P`,
which is not in the half-open range `[0, P)`. -/
theorem gfp_fromSpdz_accepts_prime :
    Gfp.fromSpdz "816cc21a898665048576fa4690c30001" = Except.ok ⟨GFP_PRIME⟩ ∧
    ¬ ((⟨GFP_PRIME⟩ : Gfp).val < GFP_PRIME) := by
  constructor
  · rfl
  · simp

/-- Helper: the hex digit characters decode back to their values. -/
theorem hexCharVal_hexDigitChar : ∀ d < 16, hexCharVal (hexDigitChar d) = d := by decide

/-- Helper: the recursion fuel of `natToHexRevAux` is irrelevant once it is
at least the number being printed. -/
theorem natToHexRevAux_fuel :
    ∀ (fuel fuel2 n : Nat), n ≤ fuel → n ≤ fuel2 →
      natToHexRevAux fuel n = natToHexRevAux fuel2 n := by
  intro fuel
  induction fuel with
  | zero =>
    intro fuel2 n h1 _
    interval_cases n
    cases fuel2 <;> simp [natToHexRevAux]
  | succ f ih =>
    intro fuel2 n h1 h2
    by_cases hn : n = 0
    · subst hn
      cases fuel2 <;> simp [natToHexRevAux]
    · obtain ⟨f2, rfl⟩ : ∃ f2, fuel2 = f2 + 1 := by
        cases fuel2
        · omega
        · exact ⟨_, rfl⟩
      simp only [natToHexRevAux, if_neg hn]
      have hdiv : n / 16 < n := Nat.div_lt_self (Nat.pos_of_ne_zero hn) (by norm_num)
      rw [ih f2 (n / 16) (by omega) (by omega)]

/-- Helper: the digit recurrence of `natToHexRev` for positive numbers. -/
theorem natToHexRev_succ (n : Nat) (h : n ≠ 0) :
    natToHexRev n = hexDigitChar (n % 16) :: natToHexRev (n / 16) := by
  unfold natToHexRev
  obtain ⟨m, rfl⟩ : ∃ m, n = m + 1 := by
    cases n
    · omega
    · exact ⟨_, rfl⟩
  simp only [natToHexRevAux, if_neg h]
  have hdiv : (m + 1) / 16 < m + 1 := Nat.div_lt_self (Nat.succ_pos m) (by norm_num)
  rw [natToHexRevAux_fuel m ((m + 1) / 16) ((m + 1) / 16) (by omega) (le_refl _)]

/-- Helper: parsing the reversed digit expansion recovers the number. -/
theorem parseHex_natToHexRev (n : Nat) :
    (natToHexRev n).reverse.foldl (fun acc c => 16 * acc + hexCharVal c) 0 = n := by
  induction n using Nat.strong_induction_on with
  | _ n ih =>
    by_cases hn : n = 0
    · subst hn
      rfl
    · rw [natToHexRev_succ n hn]
      rw [List.reverse_cons, List.foldl_append]
      have hdiv : n / 16 < n := Nat.div_lt_self (Nat.pos_of_ne_zero hn) (by norm_num)
      rw [ih _ hdiv]
      simp only [List.foldl_cons, List.foldl_nil]
      rw [hexCharVal_hexDigitChar _ (Nat.mod_lt _ (by norm_num))]
      exact Nat.div_add_mod n 16

/-- Helper: `parseHex` is a left inverse of minimal hex printing. -/
theorem parseHex_natToHexString (n : Nat) : parseHex (natToHexString n) = n := by
  unfold parseHex natToHexString
  split
  · rename_i h
    subst h
    rfl
  · exact parseHex_natToHexRev n

/-- C6 (amended): `toNativeHexString` is the minimal-length big-endian hex
of the raw stored Montgomery value, with no zero padding: it parses back to
the stored value, the concrete vector for `fromUserInput(1234)` holds (its
Montgomery residue happens to need all 32 hex digits), and `fromUserInput(0)`
yields the single character `"0"` rather than a 32-character string. -/
theorem gfp_toNativeHexString_spec :
    ((Gfp.fromUserInput 1234).map Gfp.toNativeHexString =
      Except.ok "6b65f311370d2ce7e9fe8f6c3d67f678") ∧
    (∀ g : Gfp, parseHex (Gfp.toNativeHexString g) = g.val) ∧
    ((Gfp.fromUserInput 0).map (fun g => (Gfp.toNativeHexString g).length) =
      Except.ok 1) := by
  refine ⟨by rfl, ?_, by rfl⟩
  intro g
  exact parseHex_natToHexString g.val

/-- Counterexample for C6 as stated: the hex representation of
`fromUserInput(0)` has length 1, not the 32 characters (16 zero-padded
bytes) the claim requires. -/
theorem gfp_toNativeHexString_not_padded :
    (Gfp.fromUserInput 0).map (fun g => Gfp.toNativeHexString g) = Except.ok "0" ∧
    ("0" : String).length ≠ 32 := by
  exact ⟨by rfl, by decide⟩

/-- Helper: Montgomery conversion round-trips on field residues. -/
theorem fromMontgomery_toMontgomery (m : Nat) (hm : m < GFP_PRIME) :
    fromMontgomery (toMontgomery m) = m := by
  unfold fromMontgomery toMontgomery
  rw [Nat.mod_mul_mod, mul_assoc, Nat.mul_mod m (R * R_INVERSE) GFP_PRIME, R_INVERSE_spec,
    mul_one, Nat.mod_mod_of_dvd _ dvd_rfl, Nat.mod_eq_of_lt hm]

/-- Helper: for an in-range user integer, `fromUserInput` succeeds and
undoing the Montgomery form and the negative remapping recovers it. -/
theorem fromUserInput_decodes (v : Int) (h1 : MIN_NEGATIVE ≤ v)
    (h2 : v < (GFP_NEGATIVE_BOUNDARY : Int)) :
    ∃ g : Gfp, Gfp.fromUserInput v = Except.ok g ∧
      fromGfpMapping (fromMontgomery g.val) = v := by
  have hBP : (GFP_NEGATIVE_BOUNDARY : Int) < (GFP_PRIME : Int) := by decide
  have hMN : MIN_NEGATIVE = (GFP_NEGATIVE_BOUNDARY : Int) - (GFP_PRIME : Int) := rfl
  refine ⟨⟨toMontgomery (if v < 0 then v + GFP_PRIME else v).toNat⟩, ?_, ?_⟩
  · unfold Gfp.fromUserInput mkGfp
    rw [if_neg (by simp), if_neg (by push_neg; exact ⟨h1, h2⟩)]
  · set m : Int := if v < 0 then v + GFP_PRIME else v with hmdef
    have hm0 : 0 ≤ m := by
      rw [hmdef]
      split <;> omega
    have hmP : m < GFP_PRIME := by
      rw [hmdef]
      split <;> omega
    have hcast : (m.toNat : Int) = m := Int.toNat_of_nonneg hm0
    have hmlt : m.toNat < GFP_PRIME := by omega
    rw [fromMontgomery_toMontgomery _ hmlt]
    unfold fromGfpMapping
    by_cases hv : v < 0
    · have hmv : m = v + GFP_PRIME := by rw [hmdef, if_pos hv]
      rw [if_pos (by omega)]
      omega
    · have hmv : m = v := by rw [hmdef, if_neg hv]
      rw [if_neg (by omega)]
      omega

/-- C2 (amended): the round trip `fromUserInput` then `toJSInteger` returns
`v` exactly for every `v` in the JS safe integer range
`[-(2^53 - 1), 2^53 - 1]` (a strict subset of `[-P/2, P/2)`); for an
in-field `v` beyond that range `toJSInteger` throws the overflow error
instead of returning `v`. -/
theorem fromUserInput_toJSInteger_roundtrip :
    (∀ v : Int, -(2 ^ 53 - 1) ≤ v → v ≤ 2 ^ 53 - 1 →
      (Gfp.fromUserInput v).bind Gfp.toJSInteger = Except.ok v) ∧
    (∀ v : Int, MIN_NEGATIVE ≤ v → v < (GFP_NEGATIVE_BOUNDARY : Int) →
      (2 ^ 53 - 1 < v ∨ v < -(2 ^ 53 - 1)) →
      (Gfp.fromUserInput v).bind Gfp.toJSInteger =
        Except.error (JSError.error ("Overflow converting Gfp " ++ toString v ++
          " to JS Integer."))) := by
  constructor
  · intro v hlo hhi
    have h1 : MIN_NEGATIVE ≤ v := by
      have : MIN_NEGATIVE < -(2 ^ 53 - 1) := by decide
      omega
    have h2 : v < (GFP_NEGATIVE_BOUNDARY : Int) := by
      have : (2 ^ 53 - 1 : Int) < (GFP_NEGATIVE_BOUNDARY : Int) := by decide
      omega
    obtain ⟨g, hg, hdec⟩ := fromUserInput_decodes v h1 h2
    rw [hg]
    show Gfp.toJSInteger g = Except.ok v
    unfold Gfp.toJSInteger
    rw [hdec, if_pos ⟨hlo, hhi⟩]
  · intro v h1 h2 hout
    obtain ⟨g, hg, hdec⟩ := fromUserInput_decodes v h1 h2
    rw [hg]
    show Gfp.toJSInteger g =
      Except.error (JSError.error ("Overflow converting Gfp " ++ toString v ++
        " to JS Integer."))
    unfold Gfp.toJSInteger
    rw [hdec, if_neg (by omega)]

/-- Witness for C2: the round trip at `v = 5` and the overflow at
`v = 2^53`. -/
theorem fromUserInput_toJSInteger_roundtrip_witness :
    ((Gfp.fromUserInput 5).bind Gfp.toJSInteger = Except.ok 5) ∧
    ((Gfp.fromUserInput (2 ^ 53)).bind Gfp.toJSInteger =
      Except.error (JSError.error ("Overflow converting Gfp " ++ toString (2 ^ 53 : Int) ++
        " to JS Integer."))) := by
  constructor
  · exact fromUserInput_toJSInteger_roundtrip.1 5 (by decide) (by decide)
  · exact fromUserInput_toJSInteger_roundtrip.2 (2 ^ 53) (by decide) (by decide)
      (Or.inl (by decide))

/-- Counterexample for C2 as stated: `v = 2^53` satisfies
`-P/2 ≤ v < P/2` (stated here with the division cleared) yet the round
trip throws the overflow error rather than returning `v`, because `2^53`
exceeds `Number.MAX_SAFE_INTEGER`. -/
theorem fromUserInput_toJSInteger_overflow_counterexample :
    (-(GFP_PRIME : Int) ≤ 2 * 2 ^ 53) ∧ (2 * 2 ^ 53 < (GFP_PRIME : Int)) ∧
    (Gfp.fromUserInput (2 ^ 53)).bind Gfp.toJSInteger =
      Except.error (JSError.error "Overflow converting Gfp 9007199254740992 to JS Integer.") := by
  refine ⟨by decide, by decide, by rfl⟩

/-- Helper: once the accumulator is the `NaN` sentinel, a comparison that
rejects `NaN` keeps failing, so the loop ends false. -/
theorem lcLoop_none_eq_false {α : Type} (compare : Option α → α → Bool)
    (hnan : ∀ b, compare none b = false) :
    ∀ (rest : List α) (b : α), lcLoop compare none b rest = false := by
  intro rest
  induction rest with
  | nil => intro b; simpa [lcLoop] using hnan b
  | cons c rs ih =>
    intro b
    simp only [lcLoop, hnan b, if_false]
    exact ih c

/-- Helper: for a `NaN`-rejecting comparison the loop succeeds exactly when
every adjacent pair passes. -/
theorem lcLoop_chain {α : Type} (compare : Option α → α → Bool)
    (hnan : ∀ b, compare none b = false) :
    ∀ (rest : List α) (a b : α),
      lcLoop compare (some a) b rest = true ↔
        (compare (some a) b = true ∧
          List.Chain' (fun x y => compare (some x) y = true) (b :: rest)) := by
  intro rest
  induction rest with
  | nil =>
    intro a b
    simp [lcLoop]
  | cons c rs ih =>
    intro a b
    by_cases hab : compare (some a) b = true
    · simp only [lcLoop, hab, if_true]
      rw [ih b c]
      simp [hab, List.chain'_cons]
    · have hab' : compare (some a) b = false := by
        cases h : compare (some a) b
        · rfl
        · exact absurd h hab
      have hstep : lcLoop compare (some a) b (c :: rs) = false := by
        simp only [lcLoop, hab']
        simpa using lcLoop_none_eq_false compare hnan rs c
      rw [hstep]
      simp [List.chain'_cons, hab']

/-- Helper: for a `NaN`-rejecting comparison, `listComparison` on a list of
two or more elements holds exactly when every adjacent pair passes. -/
theorem listComparison_chain_iff {α : Type} (l : List α) (compare : Option α → α → Bool)
    (hlen : 2 ≤ l.length) (hnan : ∀ b, compare none b = false) :
    listComparison l compare = true ↔
      List.Chain' (fun x y => compare (some x) y = true) l := by
  match l with
  | [] => simp at hlen
  | [_] => simp at hlen
  | x :: y :: rest =>
    show lcLoop compare (some x) y rest = true ↔ _
    rw [lcLoop_chain compare hnan rest x y, List.chain'_cons]

/-- C8 (amended): `listComparison` is true on empty and singleton lists; on
longer lists, provided the comparison callback returns false whenever its
accumulator argument is the `NaN` sentinel, it returns true exactly when
`compare` holds for every adjacent pair (so a final element of zero or
false never masks a passing run). Without the `NaN`-rejection proviso the
equivalence fails (see the counterexample). -/
theorem listComparison_adjacent_pairs {α : Type} :
    (∀ compare : Option α → α → Bool, listComparison ([] : List α) compare = true) ∧
    (∀ (a : α) (compare : Option α → α → Bool), listComparison [a] compare = true) ∧
    (∀ (l : List α) (compare : Option α → α → Bool), 2 ≤ l.length →
      (∀ b, compare none b = false) →
      (listComparison l compare = true ↔
        List.Chain' (fun x y => compare (some x) y = true) l)) := by
  exact ⟨fun _ => rfl, fun _ _ => rfl,
    fun l compare hlen hnan => listComparison_chain_iff l compare hlen hnan⟩

/-- The comparison used by the C8 witness: it holds of an adjacent pair when
the first component is at most the second, and rejects the `NaN` sentinel. -/
def leCompare : Option Nat → Nat → Bool
  | some x, b => decide (x ≤ b)
  | none, _ => false

/-- Witness for C8: the adjacent-pair characterisation evaluated on
concrete lists with `leCompare`. -/
theorem listComparison_adjacent_pairs_witness :
    listComparison ([] : List Nat) leCompare = true ∧
    listComparison [5] leCompare = true ∧
    (listComparison [1, 2, 3] leCompare = true ↔
      List.Chain' (fun x y => leCompare (some x) y = true) [1, 2, 3]) := by
  refine ⟨listComparison_adjacent_pairs.1 leCompare,
    listComparison_adjacent_pairs.2.1 5 leCompare,
    listComparison_adjacent_pairs.2.2 [1, 2, 3] leCompare (by decide) (fun b => rfl)⟩

/-- Counterexample for C8 as stated: with the callback
`(a, b) => Number.isNaN(a)` the reduction returns true on `[1, 2, 3]`
although the adjacent pair `(1, 2)` fails the comparison — the `NaN`
failure sentinel re-enters the user callback and can be resurrected. -/
theorem listComparison_nan_resurrection :
    listComparison [1, 2, 3] (fun a (_ : Nat) => a.isNone) = true ∧
    (fun (a : Option Nat) (_ : Nat) => a.isNone) (some 1) 2 = false := ⟨rfl, rfl⟩

/-- Helper: the status fold of `flattenResponseMessage` computes the
conjunction of all statuses. -/
theorem foldl_and_status (ms : List ResponseMsg) :
    ∀ a : Bool, ms.foldl (fun x b => x && b.status) a = (a && ms.all (fun m => m.status)) := by
  induction ms with
  | nil => intro a; simp
  | cons m rest ih =>
    intro a
    simp only [List.foldl_cons, List.all_cons, ih (a && m.status), Bool.and_assoc]

/-- Helper: chains of pairwise event-type equality are exactly agreement
with the head. -/
theorem chain_eventType_iff :
    ∀ (l : List ResponseMsg) (x : ResponseMsg),
      List.Chain' (fun a b => eventTypeCompare (some a) b = true) (x :: l) ↔
        ∀ m ∈ l, m.eventType = x.eventType := by
  intro l
  induction l with
  | nil => intro x; simp
  | cons y rs ih =>
    intro x
    rw [List.chain'_cons, ih y]
    unfold eventTypeCompare
    rw [beq_iff_eq]
    constructor
    · rintro ⟨hxy, hall⟩ m hm
      rcases List.mem_cons.1 hm with h | h
      · subst h; exact hxy.symm
      · rw [hall m h, hxy]
    · intro hall
      refine ⟨(hall y (by simp)).symm, fun m hm => ?_⟩
      rw [hall m (List.mem_cons_of_mem _ hm), hall y (by simp)]

/-- Helper: `listComparison` with the event-type callback tests agreement
with the head message. -/
theorem listComparison_eventTypes (m0 : ResponseMsg) (rest : List ResponseMsg) :
    listComparison (m0 :: rest) eventTypeCompare = true ↔
      ∀ m ∈ rest, m.eventType = m0.eventType := by
  match rest with
  | [] => simp [listComparison]
  | y :: rs =>
    have h := listComparison_chain_iff (m0 :: y :: rs) eventTypeCompare
      (by simp) (fun b => rfl)
    rw [h, chain_eventType_iff (y :: rs) m0]

/-- C7: `flattenResponseMessage` asserts on an undefined or empty message
list; otherwise it returns the shared event type when all messages agree
and the `error` event type when they do not, a status that is the
conjunction of the per-message statuses in the agreeing case and `false`
otherwise, and it always carries the raw input message list. -/
theorem flattenResponseMessage_spec :
    (flattenResponseMessage none = Except.error (JSError.assertionError
      "Expect non zero response messages in flattenResponseMessage.")) ∧
    (flattenResponseMessage (some []) = Except.error (JSError.assertionError
      "Expect non zero response messages in flattenResponseMessage.")) ∧
    (∀ (m0 : ResponseMsg) (rest : List ResponseMsg),
      (flattenResponseMessage (some (m0 :: rest))).map FlatResponse.msg =
        Except.ok (m0 :: rest)) ∧
    (∀ (m0 : ResponseMsg) (rest : List ResponseMsg),
      (∀ m ∈ rest, m.eventType = m0.eventType) →
      flattenResponseMessage (some (m0 :: rest)) =
        Except.ok ⟨m0.eventType, (m0 :: rest).all (fun m => m.status), m0 :: rest⟩) ∧
    (∀ (m0 : ResponseMsg) (rest : List ResponseMsg),
      (∃ m ∈ rest, m.eventType ≠ m0.eventType) →
      flattenResponseMessage (some (m0 :: rest)) =
        Except.ok ⟨EVENT_TYPE_ERROR, false, m0 :: rest⟩) := by
  have hcons : ∀ (m0 : ResponseMsg) (rest : List ResponseMsg),
      flattenResponseMessage (some (m0 :: rest)) =
        Except.ok
          ⟨if listComparison (m0 :: rest) eventTypeCompare then m0.eventType
            else EVENT_TYPE_ERROR,
          if listComparison (m0 :: rest) eventTypeCompare then
            (m0 :: rest).foldl (fun a b => a && b.status) true
          else false,
          m0 :: rest⟩ := fun _ _ => rfl
  refine ⟨rfl, rfl, ?_, ?_, ?_⟩
  · intro m0 rest
    rw [hcons]
    rfl
  · intro m0 rest hall
    have hsame : listComparison (m0 :: rest) eventTypeCompare = true :=
      (listComparison_eventTypes m0 rest).2 hall
    rw [hcons, hsame]
    simp only [if_true]
    congr 1
    rw [foldl_and_status (m0 :: rest) true, Bool.true_and]
  · intro m0 rest ⟨m, hm, hne⟩
    have hsame : listComparison (m0 :: rest) eventTypeCompare = false := by
      cases h : listComparison (m0 :: rest) eventTypeCompare
      · rfl
      · exact absurd ((listComparison_eventTypes m0 rest).1 h m hm) hne
    rw [hcons, hsame]
    simp

/-- Witness for C7: the reconciliation evaluated on concrete agreeing and
disagreeing message lists. -/
theorem flattenResponseMessage_spec_witness :
    ((flattenResponseMessage (some [⟨"a", true⟩, ⟨"a", false⟩])).map FlatResponse.msg =
      Except.ok [⟨"a", true⟩, ⟨"a", false⟩]) ∧
    (flattenResponseMessage (some [⟨"a", true⟩, ⟨"a", false⟩]) =
      Except.ok ⟨"a", ([(⟨"a", true⟩ : ResponseMsg), ⟨"a", false⟩]).all (fun m => m.status),
        [⟨"a", true⟩, ⟨"a", false⟩]⟩) ∧
    (flattenResponseMessage (some [⟨"a", true⟩, ⟨"b", true⟩]) =
      Except.ok ⟨EVENT_TYPE_ERROR, false, [⟨"a", true⟩, ⟨"b", true⟩]⟩) := by
  refine ⟨flattenResponseMessage_spec.2.2.1 ⟨"a", true⟩ [⟨"a", false⟩],
    flattenResponseMessage_spec.2.2.2.1 ⟨"a", true⟩ [⟨"a", false⟩] (by decide),
    flattenResponseMessage_spec.2.2.2.2 ⟨"a", true⟩ [⟨"b", true⟩] ⟨⟨"b", true⟩, by decide, by decide⟩⟩

/-- Helper: a loop whose comparison is implied by a predicate over the
elements succeeds when every element satisfies the predicate. -/
theorem lcLoop_true_of_pred {α : Type} (compare : Option α → α → Bool) (p : α → Bool)
    (hcomp : ∀ a b, p a = true → p b = true → compare (some a) b = true) :
    ∀ (rest : List α) (a b : α), p a = true → p b = true →
      (∀ c ∈ rest, p c = true) → lcLoop compare (some a) b rest = true := by
  intro rest
  induction rest with
  | nil =>
    intro a b ha hb _
    simpa [lcLoop] using hcomp a b ha hb
  | cons c rs ih =>
    intro a b ha hb hall
    simp only [lcLoop, hcomp a b ha hb, if_true]
    exact ih b c hb (hall c (by simp)) (fun d hd => hall d (List.mem_cons_of_mem _ hd))

/-- Helper: `listComparison` succeeds whenever a sufficient predicate holds
of all the elements. -/
theorem listComparison_true_of_pred {α : Type} (compare : Option α → α → Bool) (p : α → Bool)
    (hcomp : ∀ a b, p a = true → p b = true → compare (some a) b = true)
    (l : List α) (hall : ∀ v ∈ l, p v = true) : listComparison l compare = true := by
  match l with
  | [] => rfl
  | [_] => rfl
  | x :: y :: rest =>
    show lcLoop compare (some x) y rest = true
    exact lcLoop_true_of_pred compare p hcomp rest x y (hall x (by simp))
      (hall y (by simp)) (fun d hd => hall d (by simp [hd]))

/-- Helper: a pairwise-conjunction chain over a list of two or more elements
forces the predicate on every element. -/
theorem forall_of_chain_and {α : Type} (p : α → Bool) :
    ∀ l : List α, List.Chain' (fun x y => (p x && p y) = true) l → 2 ≤ l.length →
      ∀ v ∈ l, p v = true := by
  intro l
  induction l with
  | nil => intro _ h; simp at h
  | cons x xs ih =>
    intro hch hlen v hv
    cases xs with
    | nil => simp at hlen
    | cons y rest =>
      rw [List.chain'_cons] at hch
      obtain ⟨hxy, hch2⟩ := hch
      rw [Bool.and_eq_true] at hxy
      rcases List.mem_cons.1 hv with rfl | hv2
      · exact hxy.1
      · cases rest with
        | nil =>
          have : v = y := by simpa using hv2
          subst this
          exact hxy.2
        | cons z rs => exact ih hch2 (by simp) v hv2

/-- Helper: when every comparison against the final element fails, the loop
ends false whatever happened earlier. -/
theorem lcLoop_false_of_last {α : Type} (compare : Option α → α → Bool) :
    ∀ (rest : List α) (b : α) (acc : Option α) (v : α),
      (b :: rest).getLast? = some v → (∀ x, compare x v = false) →
      lcLoop compare acc b rest = false := by
  intro rest
  induction rest with
  | nil =>
    intro b acc v hlast hx
    have hbv : b = v := by simpa using hlast
    subst hbv
    simpa [lcLoop] using hx acc
  | cons c rs ih =>
    intro b acc v hlast hx
    have h2 : (c :: rs).getLast? = some v := by
      simpa [List.getLast?_cons_cons] using hlast
    exact ih c _ v h2 hx

/-- Helper: a throwing map over elements on which the callback succeeds
pointwise returns the pointwise results. -/
theorem mapME_ok_of_forall {α β : Type} (f : α → Except JSError β) (g : α → β) :
    ∀ l : List α, (∀ x ∈ l, f x = Except.ok (g x)) → mapME f l = Except.ok (l.map g) := by
  intro l
  induction l with
  | nil => intro _; rfl
  | cons x xs ih =>
    intro h
    have hx := h x (by simp)
    have hxs := ih (fun y hy => h y (List.mem_cons_of_mem _ hy))
    simp only [mapME, hx, hxs, List.map_cons]
    rfl

/-- Helper: a JS integer is in particular a number. -/
theorem isNumber_of_isIntegerJS (v : JSVal) (h : v.isIntegerJS = true) :
    v.isNumber = true := by
  cases v with
  | num q => rfl
  | other c => simp [JSVal.isIntegerJS] at h

/-- The claim-side fixed point encoding: a number `x` becomes
`trunc(round(x * 2^f))`; non-numbers are untouched (the map is only applied
to all-number lists). -/
def shiftedJS (f : Nat) (v : JSVal) : JSVal :=
  match v with
  | .num q => .num ((jsTrunc ((jsRound (q * 2 ^ f) : ℚ)) : ℚ))
  | .other c => .other c

/-- The whole-bit-length guard of `jsNumberToShiftedInteger`, as a decidable
per-element predicate. -/
def withinFixedBound (f k : Nat) (v : JSVal) : Bool :=
  match v with
  | .num q => decide ((jsTrunc q : ℚ) ≤ (2 : ℚ) ^ ((k : Int) - (f : Int)) - 1)
  | .other _ => true

/-- C9 (amended): `convertUserInput` returns lists of at most one element
unchanged with no validation at all; for lists of two or more elements in
which every element is a number, an all-integer list is returned unchanged,
and a list with a non-integer element has every element — including the
integer ones — replaced by `trunc(round(x * 2^f))` provided each element is
within the whole-bit-length guard; a non-number in the final position
triggers the must-be-numbers throw, but (as the singleton case already
shows) the claim's unconditional "any non-number value makes the call
throw" does not hold. -/
theorem convertUserInput_spec :
    (∀ (f k : Nat) (l : List JSVal), l.length ≤ 1 →
      convertUserInput f k l = Except.ok l) ∧
    (∀ (f k : Nat) (l : List JSVal), 2 ≤ l.length →
      (∀ v ∈ l, v.isIntegerJS = true) →
      convertUserInput f k l = Except.ok l) ∧
    (∀ (f k : Nat) (l : List JSVal), 2 ≤ l.length →
      (∀ v ∈ l, v.isNumber = true) →
      (∃ v ∈ l, v.isIntegerJS = false) →
      (∀ v ∈ l, withinFixedBound f k v = true) →
      convertUserInput f k l = Except.ok (l.map (shiftedJS f))) ∧
    (∀ (f k : Nat) (l : List JSVal) (v : JSVal), 2 ≤ l.length →
      l.getLast? = some v → v.isNumber = false →
      convertUserInput f k l = Except.error (JSError.error (userInputErrMsg l))) := by
  have hnumcomp : ∀ a b : JSVal, a.isNumber = true → b.isNumber = true →
      numberTypeCompare (some a) b = true := by
    intro a b ha hb
    simp [numberTypeCompare, ha, hb]
  have hintcomp : ∀ a b : JSVal, a.isIntegerJS = true → b.isIntegerJS = true →
      integerCompare (some a) b = true := by
    intro a b ha hb
    simp [integerCompare, ha, hb]
  refine ⟨?_, ?_, ?_, ?_⟩
  · intro f k l hlen
    match l, hlen with
    | [], _ => rfl
    | [a], _ => rfl
  · intro f k l _ hints
    have hnums : ∀ v ∈ l, v.isNumber = true :=
      fun v hv => isNumber_of_isIntegerJS v (hints v hv)
    have hv : listComparison l numberTypeCompare = true :=
      listComparison_true_of_pred numberTypeCompare JSVal.isNumber hnumcomp l hnums
    have hi : listComparison l integerCompare = true :=
      listComparison_true_of_pred integerCompare JSVal.isIntegerJS hintcomp l hints
    simp [convertUserInput, hv, hi]
  · intro f k l hlen hnums hex hbound
    have hv : listComparison l numberTypeCompare = true :=
      listComparison_true_of_pred numberTypeCompare JSVal.isNumber hnumcomp l hnums
    have hi : listComparison l integerCompare = false := by
      cases h : listComparison l integerCompare
      · rfl
      · exfalso
        have hch := (listComparison_chain_iff l integerCompare hlen
          (fun b => rfl)).1 h
        have hall : ∀ v ∈ l, v.isIntegerJS = true := by
          refine forall_of_chain_and JSVal.isIntegerJS l ?_ hlen
          exact hch
        obtain ⟨v, hvmem, hvfalse⟩ := hex
        rw [hall v hvmem] at hvfalse
        simp at hvfalse
    have hconv : ∀ x ∈ l, (jsNumberToShiftedInteger x f k).map JSVal.num =
        Except.ok (shiftedJS f x) := by
      intro x hx
      have hxnum := hnums x hx
      cases x with
      | other c => simp [JSVal.isNumber] at hxnum
      | num q =>
        have hb := hbound _ hx
        have hble : (jsTrunc q : ℚ) ≤ (2 : ℚ) ^ ((k : Int) - (f : Int)) - 1 := by
          simpa [withinFixedBound] using hb
        simp [jsNumberToShiftedInteger, JSVal.coerceNum, hble, shiftedJS, Except.map]
    have hmap := mapME_ok_of_forall
      (fun a => (jsNumberToShiftedInteger a f k).map JSVal.num) (shiftedJS f) l hconv
    simp [convertUserInput, hv, hi, hmap]
  · intro f k l v hlen hlast hvnum
    have hfalse : listComparison l numberTypeCompare = false := by
      match l, hlen with
      | x :: y :: rest, _ =>
        show lcLoop numberTypeCompare (some x) y rest = false
        have hlast2 : (y :: rest).getLast? = some v := by
          simpa [List.getLast?_cons_cons] using hlast
        refine lcLoop_false_of_last numberTypeCompare rest y (some x) v hlast2 ?_
        intro acc
        unfold numberTypeCompare
        rw [hvnum, Bool.and_false]
    simp [convertUserInput, hfalse]

/-- Witness for C9: the four cases of the amended statement on concrete
lists, with the fixed point parameters at their defaults `(20, 40)`. -/
theorem convertUserInput_spec_witness :
    (convertUserInput 20 40 [JSVal.num (5 / 2)] = Except.ok [JSVal.num (5 / 2)]) ∧
    (convertUserInput 20 40 [JSVal.num 1, JSVal.num 2] =
      Except.ok [JSVal.num 1, JSVal.num 2]) ∧
    (convertUserInput 20 40 [JSVal.num 1, JSVal.num (5 / 2)] =
      Except.ok ([JSVal.num 1, JSVal.num (5 / 2)].map (shiftedJS 20))) ∧
    (convertUserInput 20 40 [JSVal.num 1, JSVal.other none] =
      Except.error (JSError.error (userInputErrMsg [JSVal.num 1, JSVal.other none]))) := by
  have hwb : ∀ v ∈ [JSVal.num 1, JSVal.num (5 / 2)], withinFixedBound 20 40 v = true := by
    intro v hv
    rcases List.mem_cons.1 hv with rfl | hv2
    · simp only [withinFixedBound, decide_eq_true_eq, jsTrunc]
      norm_num
    · have : v = JSVal.num (5 / 2) := by simpa using hv2
      subst this
      simp only [withinFixedBound, decide_eq_true_eq, jsTrunc]
      norm_num
  have hint2 : ∀ v ∈ [JSVal.num 1, JSVal.num 2], JSVal.isIntegerJS v = true := by
    intro v hv
    rcases List.mem_cons.1 hv with rfl | hv2
    · rfl
    · have : v = JSVal.num 2 := by simpa using hv2
      subst this
      rfl
  have hnum2 : ∀ v ∈ [JSVal.num 1, JSVal.num (5 / 2)], JSVal.isNumber v = true := by
    intro v hv
    rcases List.mem_cons.1 hv with rfl | hv2
    · rfl
    · have : v = JSVal.num (5 / 2) := by simpa using hv2
      subst this
      rfl
  refine ⟨convertUserInput_spec.1 20 40 [JSVal.num (5 / 2)] (by simp),
    convertUserInput_spec.2.1 20 40 [JSVal.num 1, JSVal.num 2] (by simp) hint2,
    convertUserInput_spec.2.2.1 20 40 [JSVal.num 1, JSVal.num (5 / 2)] (by simp)
      hnum2 ⟨JSVal.num (5 / 2), by simp, by norm_num [JSVal.isIntegerJS]⟩ hwb,
    convertUserInput_spec.2.2.2 20 40 [JSVal.num 1, JSVal.other none] (JSVal.other none)
      (by simp) (by simp) rfl⟩

/-- Counterexample for C9 as stated: the accepted all-number list `[2.5]`
contains a non-integer, yet it is returned unchanged — the single-element
list bypasses both validation reductions — instead of being replaced by its
shifted encoding `trunc(round(2.5 * 2^20)) = 2621440`. -/
theorem convertUserInput_singleton_unconverted :
    convertUserInput 20 40 [JSVal.num (5 / 2)] = Except.ok [JSVal.num (5 / 2)] ∧
    JSVal.num (5 / 2) ≠ JSVal.num ((2621440 : ℚ)) := by
  refine ⟨rfl, ?_⟩
  simp only [ne_eq, JSVal.num.injEq]
  norm_num

/-- C5: with the libsodium `crypto_secretbox` contract as hypotheses — the
MAC-and-ciphertext is 16 bytes longer than the plaintext, opening under the
encrypting key recovers the plaintext, and opening under a different key
fails authentication — `decrypt(key, encrypt(key, m))` returns `m` through
the `MAC ‖ ciphertext ‖ nonce` layout split at `length - 24`, and
decrypting the same wire bytes under a different key throws the
authentication error. -/
theorem encrypt_decrypt_roundtrip :
    (∀ (sb : SecretBoxScheme) (key nonce m : Bytes),
      nonce.length = crypto_box_NONCEBYTES →
      (sb.easy m nonce key).length = m.length + crypto_secretbox_MACBYTES →
      sb.openEasy (sb.easy m nonce key) nonce key = some m →
      decrypt sb key (encrypt sb key nonce m) = Except.ok m) ∧
    (∀ (sb : SecretBoxScheme) (key key2 nonce m : Bytes),
      nonce.length = crypto_box_NONCEBYTES →
      (sb.easy m nonce key).length = m.length + crypto_secretbox_MACBYTES →
      sb.openEasy (sb.easy m nonce key) nonce key2 = none →
      decrypt sb key2 (encrypt sb key nonce m) =
        Except.error (JSError.error "Authentication/decryption failed.")) := by
  have hsplit : ∀ (sb : SecretBoxScheme) (key nonce m : Bytes),
      nonce.length = crypto_box_NONCEBYTES →
      (sb.easy m nonce key).length = m.length + crypto_secretbox_MACBYTES →
      (¬ ((encrypt sb key nonce m).length <
          crypto_box_NONCEBYTES + crypto_secretbox_MACBYTES)) ∧
      (encrypt sb key nonce m).take
          ((encrypt sb key nonce m).length - crypto_box_NONCEBYTES) = sb.easy m nonce key ∧
      (encrypt sb key nonce m).drop
          ((encrypt sb key nonce m).length - crypto_box_NONCEBYTES) = nonce := by
    intro sb key nonce m hn hlen
    have henc : encrypt sb key nonce m = sb.easy m nonce key ++ nonce := rfl
    have hlen2 : (encrypt sb key nonce m).length =
        m.length + crypto_secretbox_MACBYTES + crypto_box_NONCEBYTES := by
      rw [henc, List.length_append, hlen, hn]
    have hstart : (encrypt sb key nonce m).length - crypto_box_NONCEBYTES =
        (sb.easy m nonce key).length := by
      rw [hlen2, hlen]
      omega
    refine ⟨?_, ?_, ?_⟩
    · rw [hlen2]
      omega
    · rw [hstart, henc]
      exact List.take_left _ _
    · rw [hstart, henc]
      exact List.drop_left _ _
  constructor
  · intro sb key nonce m hn hlen hopen
    obtain ⟨hge, htake, hdrop⟩ := hsplit sb key nonce m hn hlen
    unfold decrypt
    rw [if_neg hge, htake, hdrop, hopen]
  · intro sb key key2 nonce m hn hlen hopen
    obtain ⟨hge, htake, hdrop⟩ := hsplit sb key nonce m hn hlen
    unfold decrypt
    rw [if_neg hge, htake, hdrop, hopen]

/-- Witness for C5: the round trip and the wrong-key failure evaluated with
the concrete toy secretbox. -/
theorem encrypt_decrypt_roundtrip_witness :
    (decrypt toySecretBox (List.replicate 32 7)
      (encrypt toySecretBox (List.replicate 32 7) (List.replicate 24 9) [5, 6, 7]) =
        Except.ok [5, 6, 7]) ∧
    (decrypt toySecretBox (List.replicate 32 8)
      (encrypt toySecretBox (List.replicate 32 7) (List.replicate 24 9) [5, 6, 7]) =
        Except.error (JSError.error "Authentication/decryption failed.")) := by
  constructor
  · exact encrypt_decrypt_roundtrip.1 toySecretBox (List.replicate 32 7)
      (List.replicate 24 9) [5, 6, 7] (by decide) (by decide) (by decide)
  · exact encrypt_decrypt_roundtrip.2 toySecretBox (List.replicate 32 7)
      (List.replicate 32 8) (List.replicate 24 9) [5, 6, 7] (by decide) (by decide) (by decide)

/-- Helper: an element paired by `enum` is an element of the list. -/
theorem snd_mem_of_mem_enumFrom {α : Type} :
    ∀ (l : List α) (n : Nat) (p : Nat × α), p ∈ List.enumFrom n l → p.2 ∈ l := by
  intro l
  induction l with
  | nil => intro n p h; simp [List.enumFrom] at h
  | cons x xs ih =>
    intro n p h
    rcases List.mem_cons.1 h with rfl | h2
    · simp
    · exact List.mem_cons_of_mem _ (ih (n + 1) p h2)

/-- Helper: when every buffer length is a multiple of the width,
`checkBuffer` reports nothing. -/
theorem checkBuffer_pass (w : Nat) (bufs : List Bytes)
    (h : ∀ b ∈ bufs, b.length % w = 0) : checkBuffer w bufs = "" := by
  unfold checkBuffer
  have hfilter : ((bufs.enum.map (fun p =>
      if p.2.length % w = 0 then ""
      else "Spdz proxy " ++ toString p.1 ++ " provided " ++ toString p.2.length ++
        " bytes, expected multiple of " ++ toString w ++ ".")).filter
      (fun message => 0 < message.length)) = [] := by
    rw [List.filter_eq_nil_iff]
    intro m hm
    obtain ⟨p, hp, hfp⟩ := List.mem_map.1 hm
    have hmem : p.2 ∈ bufs := snd_mem_of_mem_enumFrom bufs 0 p hp
    rw [if_pos (h p.2 hmem)] at hfp
    subst hfp
    decide
  rw [hfilter]
  rfl

/-- Helper: the reduction rule of `allSameStep` on a live accumulator. -/
theorem allSameStep_some {α : Type} (beq : α → α → Bool) (a b : List α) :
    allSameStep beq (some a) b =
      if a.length ≠ 0 ∧ b.length ≠ 0 ∧ a.length = b.length ∧
          (a.zip b).all (fun p => beq p.1 p.2) then some a
      else none := rfl

/-- Helper: the `NaN` sentinel absorbs the rest of the `allSame` reduce. -/
theorem foldl_allSameStep_none {α : Type} (beq : α → α → Bool) :
    ∀ l : List (List α), l.foldl (allSameStep beq) none = none := by
  intro l
  induction l with
  | nil => rfl
  | cons b rs ih => simpa [allSameStep] using ih

/-- Helper: the element-wise comparison of two equal-length rows agrees with
row equality when the element comparison agrees with equality. -/
theorem zip_all_beq_iff {α : Type} (beq : α → α → Bool)
    (hbeq : ∀ a b, beq a b = true ↔ a = b) :
    ∀ (a b : List α), a.length = b.length →
      (((a.zip b).all fun p => beq p.1 p.2) = true ↔ a = b) := by
  intro a
  induction a with
  | nil =>
    intro b hb
    have : b = [] := by simpa using hb.symm
    subst this
    simp
  | cons x xs ih =>
    intro b hb
    cases b with
    | nil => simp at hb
    | cons y ys =>
      simp only [List.zip_cons_cons, List.all_cons, Bool.and_eq_true, hbeq x y,
        List.cons.injEq]
      rw [ih ys (by simpa using hb)]

/-- Helper: characterisation of `allSame` on a nonempty matrix: true exactly
when the matrix is a single row, or all rows equal a nonempty first row
(two or more equal empty rows are misreported as disagreement, because an
empty row's length `0` is falsy in the reduce's guard). -/
theorem allSame_cons_iff {α : Type} (beq : α → α → Bool)
    (hbeq : ∀ a b, beq a b = true ↔ a = b) (x : List α) :
    ∀ rest : List (List α),
      allSame beq (x :: rest) = true ↔
        (rest = [] ∨ (x ≠ [] ∧ ∀ b ∈ rest, b = x)) := by
  intro rest
  induction rest with
  | nil => simp [allSame]
  | cons b rs ih =>
    show ((b :: rs).foldl (allSameStep beq) (some x)).isSome = true ↔ _
    rw [List.foldl_cons]
    by_cases hcond : x ≠ [] ∧ b = x
    · have hstep : allSameStep beq (some x) b = some x := by
        obtain ⟨hx, rfl⟩ := hcond
        rw [allSameStep_some, if_pos]
        refine ⟨by simpa using hx, by simpa using hx, rfl, ?_⟩
        exact (zip_all_beq_iff beq hbeq _ _ rfl).2 rfl
      rw [hstep]
      rw [show (rs.foldl (allSameStep beq) (some x)).isSome = allSame beq (x :: rs) from rfl]
      rw [ih]
      constructor
      · rintro (rfl | ⟨hx, hall⟩)
        · exact Or.inr ⟨hcond.1, fun c hc => by
            rcases List.mem_cons.1 hc with rfl | hc2
            · exact hcond.2
            · simp at hc2⟩
        · refine Or.inr ⟨hx, fun c hc => ?_⟩
          rcases List.mem_cons.1 hc with rfl | hc2
          · exact hcond.2
          · exact hall c hc2
      · rintro (h | ⟨hx, hall⟩)
        · simp at h
        · exact Or.inr ⟨hx, fun c hc => hall c (List.mem_cons_of_mem _ hc)⟩
    · have hstep : allSameStep beq (some x) b = none := by
        rw [allSameStep_some, if_neg]
        intro ⟨hx, hb, hlen, hall⟩
        have hbx : b = x := ((zip_all_beq_iff beq hbeq x b hlen).1 hall).symm
        exact hcond ⟨by simpa using hx, hbx⟩
      rw [hstep, foldl_allSameStep_none]
      simp only [Option.isSome_none, Bool.false_eq_true, false_iff]
      rintro (h | ⟨hx, hall⟩)
      · simp at h
      · exact hcond ⟨hx, hall b (by simp)⟩

/-- Helper: behaviour of `binaryToArray` once the extraction callback is
known to succeed on every buffer: the first row is returned when the rows
agree (and there is more than one row only if the first row is nonempty),
and the parties-disagree error is thrown otherwise. -/
theorem binaryToArray_cases {α : Type} (w : Nat)
    (extract : Bytes → Except JSError (List α)) (beq : α → α → Bool)
    (hbeq : ∀ a b, beq a b = true ↔ a = b) (rows : Bytes → List α)
    (b0 : Bytes) (rest : List Bytes)
    (hext : ∀ b ∈ b0 :: rest, extract b = Except.ok (rows b))
    (hlen : ∀ b ∈ b0 :: rest, b.length % w = 0) :
    ((rest = [] ∨ (rows b0 ≠ [] ∧ ∀ b ∈ rest, rows b = rows b0)) →
      binaryToArray (b0 :: rest) w extract beq = Except.ok (rows b0)) ∧
    ((rest ≠ [] ∧ (rows b0 = [] ∨ ∃ b ∈ rest, rows b ≠ rows b0)) →
      binaryToArray (b0 :: rest) w extract beq =
        Except.error (JSError.error "Not all parties have sent the same result.")) := by
  have hchk : checkBuffer w (b0 :: rest) = "" := checkBuffer_pass w _ hlen
  have hmap : mapME extract (b0 :: rest) = Except.ok ((b0 :: rest).map rows) :=
    mapME_ok_of_forall extract rows _ hext
  have hsame := allSame_cons_iff beq hbeq (rows b0) (rest.map rows)
  have hcond : (rest.map rows = [] ∨ (rows b0 ≠ [] ∧ ∀ b ∈ rest.map rows, b = rows b0)) ↔
      (rest = [] ∨ (rows b0 ≠ [] ∧ ∀ b ∈ rest, rows b = rows b0)) := by
    apply or_congr
    · simp
    · apply and_congr Iff.rfl
      constructor
      · intro h b hb
        exact h (rows b) (List.mem_map_of_mem rows hb)
      · intro h r hr
        obtain ⟨b, hb, rfl⟩ := List.mem_map.1 hr
        exact h b hb
  have hmain : binaryToArray (b0 :: rest) w extract beq =
      (if ! allSame beq ((b0 :: rest).map rows) then
        Except.error (JSError.error "Not all parties have sent the same result.")
      else Except.ok (((b0 :: rest).map rows).headD [])) := by
    unfold binaryToArray
    rw [if_neg (by simp), hchk, if_neg (by decide), hmap]
  constructor
  · intro hagree
    have htrue : allSame beq ((b0 :: rest).map rows) = true := by
      rw [List.map_cons]
      exact hsame.2 (hcond.2 hagree)
    rw [hmain, htrue]
    rfl
  · intro ⟨hne, hdis⟩
    have hfalse : allSame beq ((b0 :: rest).map rows) = false := by
      rw [List.map_cons]
      cases h : allSame beq (rows b0 :: rest.map rows)
      · rfl
      · exfalso
        rcases hcond.1 (hsame.1 h) with hmapnil | ⟨hnz, hall⟩
        · exact hne (by simpa using hmapnil)
        · rcases hdis with h0 | ⟨b, hb, hbne⟩
          · exact hnz h0
          · exact hbne (hall b hb)
    rw [hmain, hfalse]
    rfl

/-- Helper: element equality agrees with `Gfp.equals`. -/
theorem gfp_equals_iff (a b : Gfp) : (a.equals b = true) ↔ a = b := by
  cases a
  cases b
  simp [Gfp.equals]

/-- The decoded field-element row of one buffer (16-byte groups,
byte-reversed, hex-parsed). -/
def gfpRows (b : Bytes) : List Gfp :=
  (chunkBytes 16 b).map (fun g => ⟨parseHex (binaryToHex g.reverse)⟩)

/-- Helper: decoding one in-range 16-byte group succeeds. -/
theorem decodeGfpGroup_ok (g : Bytes)
    (h : parseHex (binaryToHex g.reverse) ≤ GFP_PRIME) :
    decodeGfpGroup g = Except.ok ⟨parseHex (binaryToHex g.reverse)⟩ := by
  unfold decodeGfpGroup Gfp.fromSpdz mkGfp
  rw [if_pos rfl, if_neg]
  · simp
  · push_neg
    constructor
    · exact_mod_cast Nat.zero_le _
    · exact_mod_cast h

/-- Helper: the `binaryToGfpArray` extraction succeeds on a buffer all of
whose groups are in range. -/
theorem extractGfpArray_ok (b : Bytes)
    (h : ∀ g ∈ chunkBytes 16 b, parseHex (binaryToHex g.reverse) ≤ GFP_PRIME) :
    extractGfpArray b = Except.ok (gfpRows b) :=
  mapME_ok_of_forall decodeGfpGroup (fun g => ⟨parseHex (binaryToHex g.reverse)⟩) _
    (fun g hg => decodeGfpGroup_ok g (h g hg))

/-- C4 (amended): on valid-width buffers, `binaryToIntArray` and
`binaryToGfpArray` raise the parties-disagree error exactly when there are
at least two buffers and either some decoded sequence differs from the
first's or the first decoded sequence is empty (N ≥ 2 equal empty rows are
misreported as disagreement); they never raise it for a single buffer. -/
theorem binaryToArray_consistency :
    (∀ (b0 : Bytes) (rest : List Bytes), (∀ b ∈ b0 :: rest, b.length % 4 = 0) →
      (binaryToIntArray (b0 :: rest) =
          Except.error (JSError.error "Not all parties have sent the same result.") ↔
        (rest ≠ [] ∧ (extractIntArray b0 = [] ∨
          ∃ b ∈ rest, extractIntArray b ≠ extractIntArray b0)))) ∧
    (∀ b : Bytes, b.length % 4 = 0 →
      binaryToIntArray [b] = Except.ok (extractIntArray b)) ∧
    (∀ (b0 : Bytes) (rest : List Bytes), (∀ b ∈ b0 :: rest, b.length % 16 = 0) →
      (∀ b ∈ b0 :: rest, ∀ g ∈ chunkBytes 16 b,
        parseHex (binaryToHex g.reverse) ≤ GFP_PRIME) →
      (binaryToGfpArray (b0 :: rest) =
          Except.error (JSError.error "Not all parties have sent the same result.") ↔
        (rest ≠ [] ∧ (gfpRows b0 = [] ∨ ∃ b ∈ rest, gfpRows b ≠ gfpRows b0)))) ∧
    (∀ b : Bytes, b.length % 16 = 0 →
      (∀ g ∈ chunkBytes 16 b, parseHex (binaryToHex g.reverse) ≤ GFP_PRIME) →
      binaryToGfpArray [b] = Except.ok (gfpRows b)) := by
  have hint := fun (b0 : Bytes) (rest : List Bytes)
      (hlen : ∀ b ∈ b0 :: rest, b.length % 4 = 0) =>
    binaryToArray_cases 4 (fun b => Except.ok (extractIntArray b)) (fun a b => a == b)
      (fun a b => beq_iff_eq) extractIntArray b0 rest (fun b _ => rfl) hlen
  have hgfp := fun (b0 : Bytes) (rest : List Bytes)
      (hlen : ∀ b ∈ b0 :: rest, b.length % 16 = 0)
      (hdec : ∀ b ∈ b0 :: rest, ∀ g ∈ chunkBytes 16 b,
        parseHex (binaryToHex g.reverse) ≤ GFP_PRIME) =>
    binaryToArray_cases 16 extractGfpArray Gfp.equals gfp_equals_iff gfpRows b0 rest
      (fun b hb => extractGfpArray_ok b (hdec b hb)) hlen
  have hiff : ∀ {β : Type} (result : Except JSError (List β)) (rows0 : List β)
      (P : Prop),
      (¬ P → result = Except.ok rows0) →
      (P → result =
        Except.error (JSError.error "Not all parties have sent the same result.")) →
      (result = Except.error (JSError.error "Not all parties have sent the same result.")
        ↔ P) := by
    intro β result rows0 P hok herr
    constructor
    · intro hres
      by_cases hP : P
      · exact hP
      · rw [hok hP] at hres
        exact absurd hres (by simp)
    · exact herr
  refine ⟨?_, ?_, ?_, ?_⟩
  · intro b0 rest hlen
    refine hiff _ (extractIntArray b0) _ ?_ (hint b0 rest hlen).2
    intro hnp
    refine (hint b0 rest hlen).1 ?_
    by_cases hr : rest = []
    · exact Or.inl hr
    · push_neg at hnp
      obtain ⟨hne, hall⟩ := hnp hr
      exact Or.inr ⟨hne, fun b hb => hall b hb⟩
  · intro b hlen
    exact (hint b [] (by simpa using hlen)).1 (Or.inl rfl)
  · intro b0 rest hlen hdec
    refine hiff _ (gfpRows b0) _ ?_ (hgfp b0 rest hlen hdec).2
    intro hnp
    refine (hgfp b0 rest hlen hdec).1 ?_
    by_cases hr : rest = []
    · exact Or.inl hr
    · push_neg at hnp
      obtain ⟨hne, hall⟩ := hnp hr
      exact Or.inr ⟨hne, fun b hb => hall b hb⟩
  · intro b hlen hdec
    exact (hgfp b [] (by simpa using hlen) (by simpa using hdec)).1 (Or.inl rfl)

/-- Witness for C4: agreeing and disagreeing concrete decodes for both the
integer and the field-element decoders. -/
theorem binaryToArray_consistency_witness :
    ((binaryToIntArray [[1, 0, 0, 0], [2, 0, 0, 0]] =
        Except.error (JSError.error "Not all parties have sent the same result.")) ↔
      ([[2, 0, 0, 0]] ≠ ([] : List Bytes) ∧ (extractIntArray [1, 0, 0, 0] = [] ∨
        ∃ b ∈ [[2, 0, 0, 0]], extractIntArray b ≠ extractIntArray [1, 0, 0, 0]))) ∧
    (binaryToIntArray [[1, 0, 0, 0]] = Except.ok (extractIntArray [1, 0, 0, 0])) ∧
    ((binaryToGfpArray [List.replicate 16 0, List.replicate 15 0 ++ [1]] =
        Except.error (JSError.error "Not all parties have sent the same result.")) ↔
      ([List.replicate 15 0 ++ [1]] ≠ ([] : List Bytes) ∧
        (gfpRows (List.replicate 16 0) = [] ∨
          ∃ b ∈ [List.replicate 15 0 ++ [1]], gfpRows b ≠ gfpRows (List.replicate 16 0)))) ∧
    (binaryToGfpArray [List.replicate 16 0] = Except.ok (gfpRows (List.replicate 16 0))) := by
  refine ⟨?_, ?_, ?_, ?_⟩
  · exact binaryToArray_consistency.1 [1, 0, 0, 0] [[2, 0, 0, 0]] (by decide)
  · exact binaryToArray_consistency.2.1 [1, 0, 0, 0] (by decide)
  · exact binaryToArray_consistency.2.2.1 (List.replicate 16 0)
      [List.replicate 15 0 ++ [1]] (by decide) (by decide)
  · exact binaryToArray_consistency.2.2.2 (List.replicate 16 0) (by decide) (by decide)

/-- Counterexample for C4 as stated: two parties that both send an empty
buffer decode to identical (empty) sequences, yet the parties-disagree
error is raised — the truthiness guard on the row length misfires on
length zero. -/
theorem binaryToIntArray_empty_buffers_disagree :
    binaryToIntArray [[], []] =
      Except.error (JSError.error "Not all parties have sent the same result.") ∧
    extractIntArray [] = extractIntArray [] := ⟨rfl, rfl⟩

/-! ## Share reconstruction proofs (C1) -/

/-- The numeric value decoded from one 16-byte wire group: byte-reverse,
hex-encode, parse (the little-endian wire value). -/
def decodedVal (g : Bytes) : Nat := parseHex (binaryToHex g.reverse)

/-- The claim-side combined triple for slice `i`: for each of the three
16-byte components of each party's `i`-th 48-byte slice, decode and sum
across all parties modulo the prime. -/
def specCombined (byteBufferList : List Bytes) (i : Nat) : Triple :=
  ⟨⟨(byteBufferList.map fun b => decodedVal ((tripleSlice b i).take 16)).sum % GFP_PRIME⟩,
   ⟨(byteBufferList.map fun b =>
      decodedVal (((tripleSlice b i).drop 16).take 16)).sum % GFP_PRIME⟩,
   ⟨(byteBufferList.map fun b =>
      decodedVal (((tripleSlice b i).drop 32).take 16)).sum % GFP_PRIME⟩⟩

/-- Helper: `chunkBytes 16` on a cons cell. -/
theorem chunkBytes16_cons (x : Nat) (xs : Bytes) :
    chunkBytes 16 (x :: xs) = (x :: xs).take 16 :: chunkBytes 16 ((x :: xs).drop 16) :=
  chunkBytes_cons 15 x xs

/-- Helper: a 48-byte buffer splits into its three 16-byte groups. -/
theorem chunkBytes_of_length48 (l : Bytes) (h : l.length = 48) :
    chunkBytes 16 l = [l.take 16, (l.drop 16).take 16, (l.drop 32).take 16] := by
  obtain ⟨x, xs, rfl⟩ := List.exists_cons_of_ne_nil
    (by intro h0; rw [h0] at h; simp at h : l ≠ [])
  rw [chunkBytes16_cons]
  congr 1
  have h2 : (x :: xs).drop 16 ≠ [] := by
    intro h0
    have := congrArg List.length h0
    rw [List.length_drop, h] at this
    simp at this
  obtain ⟨y, ys, hyys⟩ := List.exists_cons_of_ne_nil h2
  have hdd : (y :: ys).drop 16 = (x :: xs).drop 32 := by
    rw [← hyys, List.drop_drop]
  rw [hyys, chunkBytes16_cons, hdd, ← hyys]
  congr 1
  have h3 : (x :: xs).drop 32 ≠ [] := by
    intro h0
    have := congrArg List.length h0
    rw [List.length_drop, h] at this
    simp at this
  obtain ⟨z, zs, hzzs⟩ := List.exists_cons_of_ne_nil h3
  have hz16 : (z :: zs).length = 16 := by
    rw [← hzzs, List.length_drop, h]
  have hznil : (z :: zs).drop 16 = [] := List.drop_eq_nil_of_le (by rw [hz16])
  rw [hzzs, chunkBytes16_cons, hznil, ← hzzs, chunkBytes_nil]

/-- Helper: `mkTriple` on an in-range 48-byte buffer decodes its three
groups. -/
theorem mkTriple_ok (b : Bytes) (hlen : b.length = 48)
    (hdec : ∀ g ∈ chunkBytes 16 b, decodedVal g ≤ GFP_PRIME) :
    mkTriple b = Except.ok
      ⟨⟨decodedVal (b.take 16)⟩, ⟨decodedVal ((b.drop 16).take 16)⟩,
        ⟨decodedVal ((b.drop 32).take 16)⟩⟩ := by
  have hrow : binaryToGfpArray [b] = Except.ok (gfpRows b) :=
    (binaryToArray_cases 16 extractGfpArray Gfp.equals gfp_equals_iff gfpRows b []
      (fun c hc => by
        have : c = b := by simpa using hc
        subst this
        exact extractGfpArray_ok c (fun g hg => hdec g hg))
      (fun c hc => by
        have : c = b := by simpa using hc
        subst this
        rw [hlen])).1 (Or.inl rfl)
  have hrows : gfpRows b = [⟨decodedVal (b.take 16)⟩, ⟨decodedVal ((b.drop 16).take 16)⟩,
      ⟨decodedVal ((b.drop 32).take 16)⟩] := by
    unfold gfpRows
    rw [chunkBytes_of_length48 b hlen]
    rfl
  unfold mkTriple
  rw [hrow, hrows]

/-- Helper: the slice of a buffer whose length is a positive multiple of 48
is exactly 48 bytes for every in-range index. -/
theorem tripleSlice_length (b : Bytes) (i L : Nat) (hb : b.length = L)
    (hdvd : 48 ∣ L) (hi : i < L / 48) : (tripleSlice b i).length = 48 := by
  obtain ⟨k, rfl⟩ := hdvd
  have hM : 48 * k / 48 = k := Nat.mul_div_cancel_left k (by norm_num)
  rw [hM] at hi
  have h1 : 48 * (i + 1) ≤ 48 * k := Nat.mul_le_mul_left 48 hi
  show ((b.drop (i * TRIPLE_BYTES)).take TRIPLE_BYTES).length = 48
  have hTB : TRIPLE_BYTES = 48 := rfl
  rw [hTB, List.length_take, List.length_drop, hb]
  omega

/-- Helper: the mod-`P` running fold computes the sum mod `P`. -/
theorem foldl_mod_add (vs : List Nat) :
    ∀ a : Nat, a < GFP_PRIME →
      vs.foldl (fun s v => (s + v) % GFP_PRIME) a = (a + vs.sum) % GFP_PRIME := by
  induction vs with
  | nil =>
    intro a ha
    simp [Nat.mod_eq_of_lt ha]
  | cons v vs ih =>
    intro a ha
    rw [List.foldl_cons, ih _ (Nat.mod_lt _ gfp_prime_pos), Nat.mod_add_mod,
      List.sum_cons, Nat.add_assoc]

/-- Helper: a component of the triple fold is the mod-`P` fold of the
component values. -/
theorem foldl_triple_comp (comp : Triple → Gfp)
    (hcomp : ∀ s t : Triple, comp (Triple.add s t) = (comp s).add (comp t)) :
    ∀ (ts : List Triple) (z : Triple),
      (comp (ts.foldl Triple.add z)).val =
        (ts.map fun t => (comp t).val).foldl (fun s v => (s + v) % GFP_PRIME) (comp z).val := by
  intro ts
  induction ts with
  | nil => intro z; rfl
  | cons t ts ih =>
    intro z
    rw [List.foldl_cons, ih, List.map_cons, List.foldl_cons, hcomp]
    rfl

/-- Helper: two triples with equal component values are equal. -/
theorem triple_eq_of_vals (s t : Triple) (ha : s.a.val = t.a.val)
    (hb : s.b.val = t.b.val) (hc : s.c.val = t.c.val) : s = t := by
  rcases s with ⟨⟨sa⟩, ⟨sb⟩, ⟨sc⟩⟩
  rcases t with ⟨⟨ta⟩, ⟨tb⟩, ⟨tc⟩⟩
  simp_all

/-- Helper: reduction of `combineSlice` once both scrutinees are known. -/
theorem combineSlice_red (byteBufferList : List Bytes) (i : Nat) (ts : List Triple)
    (z : Triple)
    (h1 : mapME (fun b => mkTriple (tripleSlice b i)) byteBufferList = Except.ok ts)
    (h2 : tripleZero = Except.ok z) :
    combineSlice byteBufferList i =
      (if ! (ts.foldl Triple.add z).checkRelation then
        Except.error (JSError.error "Triple to be used for a share failed check.")
      else Except.ok (ts.foldl Triple.add z).a) := by
  unfold combineSlice
  rw [h1, h2]

/-- Helper: the per-slice body of `binaryToShare` computes the claim-side
combined triple: it verifies it and yields its `a` component or throws. -/
theorem combineSlice_eq (byteBufferList : List Bytes) (L i : Nat)
    (hlen : ∀ b ∈ byteBufferList, b.length = L) (hdvd : 48 ∣ L) (hi : i < L / 48)
    (hdec : ∀ b ∈ byteBufferList, ∀ g ∈ chunkBytes 16 (tripleSlice b i),
      decodedVal g ≤ GFP_PRIME) :
    combineSlice byteBufferList i =
      (if (specCombined byteBufferList i).checkRelation then
        Except.ok (specCombined byteBufferList i).a
      else Except.error (JSError.error "Triple to be used for a share failed check.")) := by
  have hmap : mapME (fun b => mkTriple (tripleSlice b i)) byteBufferList =
      Except.ok (byteBufferList.map fun b =>
        (⟨⟨decodedVal ((tripleSlice b i).take 16)⟩,
          ⟨decodedVal (((tripleSlice b i).drop 16).take 16)⟩,
          ⟨decodedVal (((tripleSlice b i).drop 32).take 16)⟩⟩ : Triple)) := by
    refine mapME_ok_of_forall _ _ _ (fun b hb => ?_)
    exact mkTriple_ok (tripleSlice b i)
      (tripleSlice_length b i L (hlen b hb) hdvd hi) (hdec b hb)
  have hz : tripleZero = Except.ok (⟨⟨0⟩, ⟨0⟩, ⟨0⟩⟩ : Triple) := rfl
  have hfold : ((byteBufferList.map fun b =>
      (⟨⟨decodedVal ((tripleSlice b i).take 16)⟩,
        ⟨decodedVal (((tripleSlice b i).drop 16).take 16)⟩,
        ⟨decodedVal (((tripleSlice b i).drop 32).take 16)⟩⟩ : Triple)).foldl Triple.add
        ⟨⟨0⟩, ⟨0⟩, ⟨0⟩⟩) = specCombined byteBufferList i := by
    apply triple_eq_of_vals
    · rw [foldl_triple_comp Triple.a (fun s t => rfl), List.map_map]
      rw [foldl_mod_add _ 0 gfp_prime_pos, Nat.zero_add]
      rfl
    · rw [foldl_triple_comp Triple.b (fun s t => rfl), List.map_map]
      rw [foldl_mod_add _ 0 gfp_prime_pos, Nat.zero_add]
      rfl
    · rw [foldl_triple_comp Triple.c (fun s t => rfl), List.map_map]
      rw [foldl_mod_add _ 0 gfp_prime_pos, Nat.zero_add]
      rfl
  rw [combineSlice_red byteBufferList i _ _ hmap hz, hfold]
  cases h : (specCombined byteBufferList i).checkRelation <;> simp [h]

/-- Helper: the same-length reduce keeps the first buffer when all lengths
agree. -/
theorem sameLength_foldl (L : Nat) :
    ∀ (rest : List Bytes) (a : Bytes), a.length = L → (∀ b ∈ rest, b.length = L) →
      rest.foldl sameLengthStep (some a) = some a := by
  intro rest
  induction rest with
  | nil => intro a _ _; rfl
  | cons b bs ih =>
    intro a ha hall
    rw [List.foldl_cons]
    have hstep : sameLengthStep (some a) b = some a := by
      simp only [sameLengthStep]
      rw [if_pos (by rw [ha, hall b (by simp)])]
    rw [hstep]
    exact ih a ha (fun c hc => hall c (List.mem_cons_of_mem _ hc))

/-- Helper: `checkBufferLength` reports nothing on same-length buffers whose
common length is a positive multiple of 48. -/
theorem checkBufferLength_pass (b0 : Bytes) (rest : List Bytes) (L : Nat)
    (hlen : ∀ b ∈ b0 :: rest, b.length = L) (hpos : 0 < L) (hdvd : 48 ∣ L) :
    checkBufferLength (b0 :: rest) = Except.ok "" := by
  have hTB : TRIPLE_BYTES = 48 := rfl
  have hmod : L % 48 = 0 := by
    obtain ⟨k, rfl⟩ := hdvd
    exact Nat.mul_mod_right 48 k
  have hfold : (rest.foldl sameLengthStep (some b0)).isSome = true := by
    rw [sameLength_foldl L rest b0 (hlen b0 (by simp))
      (fun c hc => hlen c (List.mem_cons_of_mem _ hc))]
    rfl
  show Except.ok (String.intercalate "\n"
      ((if (rest.foldl sameLengthStep (some b0)).isSome then
          (b0 :: rest).enum.map tripleLengthMsg
        else (b0 :: rest).enum.map tripleLengthMsg ++
          ["Shares from each proxy are expected to be the same byte length."]).filter
        (fun message => 0 < message.length))) = Except.ok ""
  rw [hfold]
  simp only [if_true]
  have hmsgs : (((b0 :: rest).enum.map tripleLengthMsg).filter
      (fun message => 0 < message.length)) = [] := by
    rw [List.filter_eq_nil_iff]
    intro m hm
    obtain ⟨p, hp, hfp⟩ := List.mem_map.1 hm
    have hmem : p.2 ∈ b0 :: rest := snd_mem_of_mem_enumFrom _ 0 p hp
    rw [show tripleLengthMsg p = "" from by
      unfold tripleLengthMsg
      rw [if_pos (by rw [hlen p.2 hmem, hTB]; exact ⟨hpos, hmod⟩)]] at hfp
    subst hfp
    decide
  rw [hmsgs]
  rfl

/-- Helper: reduction of `mapME` on a cons cell. -/
theorem mapME_cons {α β : Type} (f : α → Except JSError β) (x : α) (xs : List α) :
    mapME f (x :: xs) = Except.bind (f x)
      (fun y => Except.bind (mapME f xs) (fun ys => Except.ok (y :: ys))) := rfl

/-- Helper: a throwing map fails with the first callback failure. -/
theorem mapME_error_of_first {α β : Type} (f : α → Except JSError β) (e : JSError) :
    ∀ (l : List α) (i : Nat) (hi : i < l.length),
      f (l.get ⟨i, hi⟩) = Except.error e →
      (∀ (j : Nat) (hj : j < l.length), j < i → ∃ y, f (l.get ⟨j, hj⟩) = Except.ok y) →
      mapME f l = Except.error e := by
  intro l
  induction l with
  | nil => intro i hi; simp at hi
  | cons x xs ih =>
    intro i hi herr hok
    cases i with
    | zero =>
      rw [mapME_cons, show (x :: xs).get ⟨0, hi⟩ = x from rfl] at *
      rw [herr]
      rfl
    | succ i2 =>
      obtain ⟨y, hy⟩ := hok 0 (by simp) (Nat.succ_pos i2)
      rw [show (x :: xs).get ⟨0, by simp⟩ = x from rfl] at hy
      rw [mapME_cons, hy]
      have hi2 : i2 < xs.length := by simpa using hi
      have herr2 : f (xs.get ⟨i2, hi2⟩) = Except.error e := by
        rw [show xs.get ⟨i2, hi2⟩ = (x :: xs).get ⟨i2 + 1, hi⟩ from rfl]
        exact herr
      have hok2 : ∀ (j : Nat) (hj : j < xs.length), j < i2 →
          ∃ y, f (xs.get ⟨j, hj⟩) = Except.ok y := by
        intro j hj hji
        obtain ⟨z, hz⟩ := hok (j + 1) (by simpa using hj) (by omega)
        exact ⟨z, by rw [show xs.get ⟨j, hj⟩ = (x :: xs).get ⟨j + 1, by simpa using hj⟩
          from rfl]; exact hz⟩
      rw [ih i2 hi2 herr2 hok2]
      rfl

/-- Helper: reduction of `binaryToShare` once the length validation is
known. -/
theorem binaryToShare_red (byteBufferList : List Bytes) (msg : String)
    (h : checkBufferLength byteBufferList = Except.ok msg) :
    binaryToShare byteBufferList =
      (if 0 < msg.length then Except.error (JSError.error msg)
      else mapME (combineSlice byteBufferList)
        (List.range ((byteBufferList.headD []).length / TRIPLE_BYTES))) := by
  unfold binaryToShare
  rw [h]

/-- C1 (amended): for a non-empty list of buffers of one common positive
length `L` divisible by 48 whose 16-byte groups all decode to wire values
at most `P` (values beyond `P` abort with a field-range error instead),
`binaryToShare` returns the list of the `L / 48` combined `a` components —
the per-party decoded slices summed elementwise modulo `P` — exactly when
every combined triple satisfies `a.multiply(b).equals(c)`, and throws the
triple-verification error exactly when some combined triple violates it. -/
theorem binaryToShare_spec (b0 : Bytes) (rest : List Bytes) (L : Nat)
    (hlen : ∀ b ∈ b0 :: rest, b.length = L) (hpos : 0 < L) (hdvd : 48 ∣ L)
    (hdec : ∀ b ∈ b0 :: rest, ∀ i < L / 48, ∀ g ∈ chunkBytes 16 (tripleSlice b i),
      decodedVal g ≤ GFP_PRIME) :
    (binaryToShare (b0 :: rest) =
        Except.ok ((List.range (L / 48)).map fun i => (specCombined (b0 :: rest) i).a) ↔
      ∀ i < L / 48, ((specCombined (b0 :: rest) i).a.multiply
        ((specCombined (b0 :: rest) i).b)).equals ((specCombined (b0 :: rest) i).c) = true) ∧
    (binaryToShare (b0 :: rest) =
        Except.error (JSError.error "Triple to be used for a share failed check.") ↔
      ∃ i < L / 48, ¬ (((specCombined (b0 :: rest) i).a.multiply
        ((specCombined (b0 :: rest) i).b)).equals
          ((specCombined (b0 :: rest) i).c) = true)) := by
  have hred : binaryToShare (b0 :: rest) =
      mapME (combineSlice (b0 :: rest)) (List.range (L / 48)) := by
    rw [binaryToShare_red (b0 :: rest) "" (checkBufferLength_pass b0 rest L hlen hpos hdvd)]
    rw [if_neg (by decide)]
    have hhead : ((b0 :: rest).headD []).length = L := hlen b0 (by simp)
    rw [show ((b0 :: rest).headD []).length / TRIPLE_BYTES = L / 48 from by
      rw [hhead]
      norm_num [TRIPLE_BYTES, INTEGER_LENGTH_BYTES]]
  have hcs : ∀ i, i < L / 48 → combineSlice (b0 :: rest) i =
      (if (specCombined (b0 :: rest) i).checkRelation then
        Except.ok (specCombined (b0 :: rest) i).a
      else Except.error (JSError.error "Triple to be used for a share failed check.")) := by
    intro i hi
    exact combineSlice_eq (b0 :: rest) L i hlen hdvd hi
      (fun b hb => hdec b hb i hi)
  have hA : (∀ i < L / 48, (specCombined (b0 :: rest) i).checkRelation = true) →
      binaryToShare (b0 :: rest) =
        Except.ok ((List.range (L / 48)).map fun i => (specCombined (b0 :: rest) i).a) := by
    intro hall
    rw [hred]
    refine mapME_ok_of_forall _ _ _ (fun i hi => ?_)
    have hiM : i < L / 48 := List.mem_range.1 hi
    rw [hcs i hiM, if_pos (hall i hiM)]
  have hB : (∃ i, i < L / 48 ∧ ¬ ((specCombined (b0 :: rest) i).checkRelation = true)) →
      binaryToShare (b0 :: rest) =
        Except.error (JSError.error "Triple to be used for a share failed check.") := by
    intro hex
    rw [hred]
    have hfind := Nat.find_spec hex
    set i0 := Nat.find hex with hi0def
    have hi0len : i0 < (List.range (L / 48)).length := by
      rw [List.length_range]
      exact hfind.1
    refine mapME_error_of_first _ _ (List.range (L / 48)) i0 hi0len ?_ ?_
    · rw [List.get_range]
      rw [hcs i0 hfind.1, if_neg hfind.2]
    · intro j hj hji
      have hjM : j < L / 48 := by
        rw [List.length_range] at hj
        exact hj
      have hnj := Nat.find_min hex hji
      have hcr : (specCombined (b0 :: rest) j).checkRelation = true := by
        by_contra hc
        exact hnj ⟨hjM, hc⟩
      refine ⟨(specCombined (b0 :: rest) j).a, ?_⟩
      rw [List.get_range]
      rw [hcs j hjM, if_pos hcr]
  constructor
  · constructor
    · intro hres
      by_contra hnall
      push_neg at hnall
      obtain ⟨i, hiM, hnv⟩ := hnall
      rw [hB ⟨i, hiM, hnv⟩] at hres
      exact absurd hres (by simp)
    · exact fun h => hA h
  · constructor
    · intro hres
      by_contra hnex
      push_neg at hnex
      rw [hA (fun i hi => hnex i hi)] at hres
      exact absurd hres (by simp)
    · intro ⟨i, hiM, hnv⟩
      exact hB ⟨i, hiM, hnv⟩

/-- Witness for C1: one party sending the all-zero 48-byte triple — the
zero triple trivially satisfies the relation, so `binaryToShare` yields its
combined `a` component. -/
theorem binaryToShare_spec_witness :
    binaryToShare [List.replicate 48 0] =
      Except.ok ((List.range (48 / 48)).map fun i =>
        (specCombined [List.replicate 48 0] i).a) := by
  refine (binaryToShare_spec (List.replicate 48 0) [] 48 ?_ (by norm_num)
    (by norm_num) ?_).1.mpr ?_
  · intro b hb
    have : b = List.replicate 48 0 := by simpa using hb
    subst this
    simp
  · decide
  · decide

/-- Counterexample for C1 as stated: a single party sending one 48-byte
triple of `0xff` bytes satisfies the claim's length precondition, yet
`binaryToShare` neither returns combined `a` components nor throws the
triple-verification error: the group value `2^128 - 1` exceeds the prime
and decoding aborts with the field-range error. -/
theorem binaryToShare_range_abort :
    (List.replicate 48 255).length = 48 ∧
    binaryToShare [List.replicate 48 255] = Except.error (JSError.error
      "Got a Gfp integer 340282366920938463463374607431768211455 which exceeds the field size 0 to prime.") ∧
    (JSError.error
      "Got a Gfp integer 340282366920938463463374607431768211455 which exceeds the field size 0 to prime.") ≠
      JSError.error "Triple to be used for a share failed check." := by
  refine ⟨by decide, by rfl, by decide⟩
